import Mathlib

/-!
Shallow embedding of the go-astiffmpeg repository's option-model compiler and
progress parser (src/parser.go, src/unnamed/part_003 as the canonical option
model, with part_004 as the legacy duplicate).

Modelling conventions:
* Go strings and byte slices are `List Char` (`GoStr`).
* Go `float64` is modelled by `ℚ`.  Every arithmetic step appearing in the
  claims (parsing short decimal literals, multiplying by 8/1000/1024 powers,
  truncating to int) is exact in binary64 for the values involved, so the
  rational model agrees with the Go semantics there.  Binary rounding of
  non-representable values is not modelled.
* `strconv.ParseFloat` is modelled for plain decimal syntax (optional sign,
  digits, optional fraction); exponents, hex floats and Inf/NaN forms are out
  of scope for the claims.
* `strconv.FormatFloat(v, 'f', prec, 64)` is modelled as exact fixed-point
  decimal rounding (round half away from zero); the claims only exercise it on
  values with at most `prec` exact decimal digits, where no tie occurs.
* A Go runtime panic (out-of-range indexing) is the `GoResult.crash` value.
* `time.Duration` is an integer number of nanoseconds (`ℤ`).
-/

namespace FF

abbrev GoStr := List Char

/-- One-separator `bytes.Split` / `strings.Split`: splits on every occurrence
of the character, always returning a non-empty list of fragments. -/
def splitOnChar (c : Char) : GoStr → List GoStr
  | [] => [[]]
  | x :: xs =>
    match splitOnChar c xs with
    | [] => [[]]
    | y :: ys => if x = c then [] :: y :: ys else (x :: y) :: ys

/-- Appends a tail to the last fragment of a fragment list. -/
def appendToLast (t : GoStr) : List GoStr → List GoStr
  | [] => []
  | [y] => [y ++ t]
  | y :: ys => y :: appendToLast t ys

/-- Whitespace recognised by `bytes.TrimSpace` (ASCII subset). -/
def goIsSpace (c : Char) : Bool :=
  c = ' ' ∨ c = '\t' ∨ c = '\n' ∨ c = '\x0b' ∨ c = '\x0c' ∨ c = '\r'

/-- Model of `bytes.TrimSpace`. -/
def goTrimSpace (l : GoStr) : GoStr :=
  ((l.dropWhile goIsSpace).reverse.dropWhile goIsSpace).reverse

/-- Model of `strings.HasSuffix`. -/
def hasSuffix (l suf : GoStr) : Bool :=
  decide (l.reverse.take suf.length = suf.reverse)

/-- Model of `strings.TrimSuffix`. -/
def trimSuffix (l suf : GoStr) : GoStr :=
  if hasSuffix l suf then l.take (l.length - suf.length) else l

/-- Numeric value of a decimal digit character. -/
def digitVal (c : Char) : ℕ := c.toNat - '0'.toNat

/-- Decimal evaluation of a digit string. -/
def parseNat (l : GoStr) : ℕ := l.foldl (fun a c => a * 10 + digitVal c) 0

/-- Fuel-driven decimal rendering of a natural number (most significant digit
first); structural in the fuel so that the kernel can evaluate it. -/
def natDigitsF : ℕ → ℕ → GoStr
  | 0, _ => []
  | fuel + 1, n =>
    if n < 10 then [Nat.digitChar n]
    else natDigitsF fuel (n / 10) ++ [Nat.digitChar (n % 10)]

/-- Decimal rendering of a natural number. -/
def natDigits (n : ℕ) : GoStr := natDigitsF (n + 1) n

/-- Model of `strconv.Itoa`. -/
def intToString (i : ℤ) : GoStr :=
  if i < 0 then '-' :: natDigits (-i).toNat else natDigits i.toNat

/-- Digits-only body of `strconv.Atoi`. -/
def goAtoiNat (s : GoStr) : Option ℕ :=
  if s ≠ [] ∧ s.all Char.isDigit then some (parseNat s) else none

/-- Model of `strconv.Atoi` (optional sign, then decimal digits). -/
def goAtoi (s : GoStr) : Option ℤ :=
  let neg := s.headD ' ' = '-'
  let body := if s.headD ' ' = '-' ∨ s.headD ' ' = '+' then s.tail else s
  (goAtoiNat body).map (fun n => if neg then -(n : ℤ) else (n : ℤ))

/-- Unsigned magnitude of the `strconv.ParseFloat` model: integer digits,
optional dot and fraction digits, at least one digit overall. -/
def goParseFloatMag (body : GoStr) : Option ℚ :=
  match body.dropWhile Char.isDigit with
  | [] =>
    if body.takeWhile Char.isDigit = [] then none
    else some ((parseNat (body.takeWhile Char.isDigit) : ℚ))
  | '.' :: fp =>
    if fp.all Char.isDigit ∧ (body.takeWhile Char.isDigit ≠ [] ∨ fp ≠ []) then
      some ((parseNat (body.takeWhile Char.isDigit) : ℚ) +
        (parseNat fp : ℚ) / (10 : ℚ) ^ fp.length)
    else none
  | _ => none

/-- Model of `strconv.ParseFloat` restricted to plain decimal syntax:
optional sign, then the unsigned magnitude. -/
def goParseFloat (s : GoStr) : Option ℚ :=
  let neg := s.headD ' ' = '-'
  let body := if s.headD ' ' = '-' ∨ s.headD ' ' = '+' then s.tail else s
  (goParseFloatMag body).map (fun q => if neg then -q else q)

/-- Go conversion `int(f)` of a float to an integer: truncation toward zero. -/
def ratTrunc (q : ℚ) : ℤ := q.num.tdiv (q.den : ℤ)

/-- Fixed-point fraction digits (most significant first) of `m`'s last
`prec` decimal digits. -/
def fracDigits (prec m : ℕ) : GoStr :=
  (List.range prec).reverse.map (fun i => Nat.digitChar (m / 10 ^ i % 10))

/-- Non-negative case of `strconv.FormatFloat(v, 'f', prec, 64)` (prec ≥ 1):
exact decimal rounding to `prec` fractional digits. -/
def goFormatFloatNN (prec : ℕ) (q : ℚ) : GoStr :=
  let m : ℕ := (ratTrunc (q * (10 : ℚ) ^ prec + 1 / 2)).toNat
  natDigits (m / 10 ^ prec) ++ '.' :: fracDigits prec m

/-- Model of `strconv.FormatFloat(v, 'f', prec, 64)` for `prec ≥ 1`. -/
def goFormatFloat (prec : ℕ) (q : ℚ) : GoStr :=
  if q < 0 then '-' :: goFormatFloatNN prec (-q) else goFormatFloatNN prec q

/-- Result of a Go call: a value, an error, or a runtime panic. -/
inductive GoResult (α : Type) where
  | ok (a : α)
  | error (e : GoStr)
  | crash
deriving DecidableEq

/-- Functorial action on the success value of a `GoResult`. -/
def GoResult.map {α β : Type} (f : α → β) : GoResult α → GoResult β
  | .ok a => .ok (f a)
  | .error e => .error e
  | .crash => .crash

/-- Dynamic value held in `Number.Value` (`interface{}` in Go); the code only
inspects `float64` and `int`, everything else is `other`. -/
inductive NumberValue where
  | int (k : ℤ)
  | float (q : ℚ)
  | other
deriving DecidableEq

/-- The `Number` option value type of part_003 (`Prefix` is the field `pfx`
here). -/
structure Number where
  binaryMultiple : Bool
  byteMultiple : Bool
  pfx : GoStr
  value : NumberValue
deriving DecidableEq

/-- Error value used for the float-parse failure in `numberFromString`. -/
def parseFloatErr : GoStr := "strconv.ParseFloat: invalid syntax".data

/-- Tail of `numberFromString` after the `B`/`i` suffix stripping: reads the
last character (the Go code indexes `i[len(i)-1]`, panicking — `crash` — when
the stripped text is empty), treats a non-digit last character as the prefix,
and parses the remainder as a float. -/
def nfsTail (binM byteM : Bool) (s2 : GoStr) : GoResult Number :=
  match s2.getLast? with
  | none => .crash
  | some lastc =>
    let isPfx := (goAtoi [lastc]).isNone
    let pfx : GoStr := if isPfx then [lastc] else []
    let s3 := if isPfx then s2.dropLast else s2
    match goParseFloat s3 with
    | some q => .ok ⟨binM, byteM, pfx, .float q⟩
    | none => .error parseFloatErr

/-- Translation of `numberFromString` (part_003 lines 99-114): strip an
optional trailing `B` (byte multiple), then an optional trailing `i` (binary
multiple), then run the prefix/float tail. -/
def numberFromString (s : GoStr) : GoResult Number :=
  let byteM := hasSuffix s ['B']
  let s1 := if byteM then trimSuffix s ['B'] else s
  let binM := hasSuffix s1 ['i']
  let s2 := if binM then trimSuffix s1 ['i'] else s1
  nfsTail binM byteM s2

/-- Lowercasing used by `strings.ToLower` on the prefix. -/
def charsToLower (l : GoStr) : GoStr := l.map Char.toLower

/-- Multiplier application shared by `Number.float64`: byte multiple then
prefix rank over the 1000/1024 base. -/
def Number.applyMultipliers (n : Number) (v : ℚ) : ℚ :=
  let o := if n.byteMultiple then v * 8 else v
  let m : ℚ := if n.binaryMultiple then 1024 else 1000
  match charsToLower n.pfx with
  | ['k'] => o * m
  | ['m'] => o * m ^ 2
  | ['g'] => o * m ^ 3
  | ['t'] => o * m ^ 4
  | ['p'] => o * m ^ 5
  | _ => o

/-- Translation of `Number.float64` (part_003 lines 116-152); an unlisted
dynamic type returns 0 before any multiplier is applied. -/
def Number.float64 (n : Number) : ℚ :=
  match n.value with
  | .float q => n.applyMultipliers q
  | .int k => n.applyMultipliers k
  | .other => 0

/-- The trailing-zero stripping loop of `Number.string`. -/
def dropTrailingZeros (l : GoStr) : GoStr :=
  (l.reverse.dropWhile (fun c => c = '0')).reverse

/-- Translation of `Number.string` (part_003 lines 154-175): floats are
formatted with 3 decimals then stripped of trailing zeros and a trailing dot,
ints via `Itoa`; any other dynamic type returns "" without suffixes. -/
def Number.string (n : Number) : GoStr :=
  match n.value with
  | .float q =>
    trimSuffix (dropTrailingZeros (goFormatFloat 3 q)) ['.'] ++ n.pfx
      ++ (if n.binaryMultiple then ['i'] else [])
      ++ (if n.byteMultiple then ['B'] else [])
  | .int k =>
    intToString k ++ n.pfx
      ++ (if n.binaryMultiple then ['i'] else [])
      ++ (if n.byteMultiple then ['B'] else [])
  | .other => []

/-! ## Progress parser (src/parser.go) -/

/-- The progress sample `DefaultStdErrResults`; `bitrate` is bits/s, `size`
is bits, `time` is nanoseconds. -/
structure DefaultStdErrResults where
  bitrate : Option ℚ
  fps : Option ℤ
  frame : Option ℤ
  q : Option ℚ
  size : Option ℤ
  speed : Option ℚ
  time : Option ℤ
deriving DecidableEq

/-- The zero value of `DefaultStdErrResults`. -/
def emptyResults : DefaultStdErrResults := ⟨none, none, none, none, none, none, none⟩

/-- Translation of the `time` case of `parseResults`: split on dot, read the
fractional part as centiseconds, then split the head on colons and add
hours/minutes/seconds; every component that fails `Atoi` contributes zero. -/
def goDuration (v : GoStr) : ℤ :=
  let ps := splitOnChar '.' v
  let frac : ℤ :=
    if ps.length > 1 then
      match goAtoi (ps.getD 1 []) with
      | some p => p * 10 * 1000000
      | none => 0
    else 0
  let ps0 := splitOnChar ':' (ps.headD [])
  let hms : ℤ :=
    if 3 ≤ ps0.length then
      (match goAtoi (ps0.getD 0 []) with | some p => p * 3600000000000 | none => 0)
      + (match goAtoi (ps0.getD 1 []) with | some p => p * 60000000000 | none => 0)
      + (match goAtoi (ps0.getD 2 []) with | some p => p * 1000000000 | none => 0)
    else 0
  frac + hms

/-- The `switch k` body of `parseResults`: applies one key/value pair to the
accumulating sample.  A `size` value whose `B`/`i`-stripped remainder is empty
makes `numberFromString` panic, which propagates as `crash`. -/
def applyKV (k v : GoStr) (r : DefaultStdErrResults) : GoResult DefaultStdErrResults :=
  if k = "bitrate".data then
    match goParseFloat (trimSuffix v "kbits/s".data) with
    | some p => .ok { r with bitrate := some (p * 1000) }
    | none => .ok r
  else if k = "frame".data then
    match goAtoi v with
    | some p => .ok { r with frame := some p }
    | none => .ok r
  else if k = "fps".data then
    match goParseFloat v with
    | some p => .ok { r with fps := some (ratTrunc p) }
    | none => .ok r
  else if k = "q".data then
    match goParseFloat v with
    | some p => .ok { r with q := some p }
    | none => .ok r
  else if k = "size".data then
    match numberFromString v with
    | .ok n => .ok { r with size := some (ratTrunc n.float64) }
    | .error _ => .ok r
    | .crash => .crash
  else if k = "speed".data then
    match goParseFloat (trimSuffix v ['x']) with
    | some p => .ok { r with speed := some p }
    | none => .ok r
  else if k = "time".data then
    .ok { r with time := some (goDuration v) }
  else .ok r

/-- The ranged loop of `parseResults` over the `=`-split chunks, carrying the
running sample and the pending key; `idx` is the range index. -/
def chunkFold : ℕ → DefaultStdErrResults × GoStr → List GoStr →
    GoResult (DefaultStdErrResults × GoStr)
  | _, st, [] => .ok st
  | idx, (r, k), chunk :: rest =>
    let items := splitOnChar ' ' (goTrimSpace chunk)
    let stepped : GoResult DefaultStdErrResults :=
      if items.headD [] ≠ [] ∧ k ≠ [] then applyKV k (items.headD []) r else .ok r
    match stepped with
    | .ok r' =>
      let k' :=
        if items.length > 1 ∧ items.getD 1 [] ≠ [] then items.getD 1 []
        else if items.length = 1 ∧ idx = 0 then items.headD []
        else k
      chunkFold (idx + 1) (r', k') rest
    | .error e => .error e
    | .crash => .crash

/-- Translation of `defaultStdErrParser.parseResults` (parser.go lines
67-140). -/
def parseResults (b : GoStr) : GoResult DefaultStdErrResults :=
  (chunkFold 0 (emptyResults, []) (splitOnChar '=' b)).map (fun st => st.1)

/-- The key/value pairs the chunk loop of `parseResults` hands to its
`switch`, computed from the chunk list alone: the pending-key threading of
the loop does not depend on the accumulating sample, so the sequence of
`applyKV` invocations is a pure function of the `=`-split chunks. -/
def kvSeq : ℕ → GoStr → List GoStr → List (GoStr × GoStr)
  | _, _, [] => []
  | idx, k, chunk :: rest =>
    let items := splitOnChar ' ' (goTrimSpace chunk)
    let here := if items.headD [] ≠ [] ∧ k ≠ [] then [(k, items.headD [])] else []
    let k' :=
      if items.length > 1 ∧ items.getD 1 [] ≠ [] then items.getD 1 []
      else if items.length = 1 ∧ idx = 0 then items.headD []
      else k
    here ++ kvSeq (idx + 1) k' rest

/-- Translation of `defaultStdErrParser.Process` (parser.go lines 35-53),
returning the list of samples handed to the callback this tick (`[]` when the
callback is not invoked, `crash` when decoding panics). -/
def processEmits (b : GoStr) : GoResult (List DefaultStdErrResults) :=
  let lines := splitOnChar '\n' b
  if lines = [] then .ok []
  else
    let items := splitOnChar '\r' (lines.getLastD [])
    if items.length < 2 then .ok []
    else (parseResults (items.getD (items.length - 2) [])).map (fun r => [r])

/-! ## Option model (src/unnamed/part_003, the canonical version) -/

/-- The mutable command state touched by the option model: the argument
vector and the environment additions. -/
structure Cmd where
  args : List GoStr
  env : List GoStr
deriving DecidableEq

/-- The empty command state. -/
def emptyCmd : Cmd := ⟨[], []⟩

/-- `LogOptions` (part_003 lines 66-71). -/
structure LogOptions where
  color : Option Bool
  level : GoStr
  repeated : Bool
deriving DecidableEq

/-- Translation of `LogOptions.adaptCmd` (part_003 lines 73-89): color is an
environment variable, a non-empty level emits `-loglevel [repeat+]level`. -/
def LogOptions.adaptCmd (o : LogOptions) (cmd : Cmd) : Cmd :=
  let cmd :=
    match o.color with
    | some true => { cmd with env := cmd.env ++ ["AV_LOG_FORCE_COLOR=1".data] }
    | some false => { cmd with env := cmd.env ++ ["AV_LOG_FORCE_NOCOLOR=1".data] }
    | none => cmd
  if o.level ≠ [] then
    { cmd with args := cmd.args ++ ["-loglevel".data,
        (if o.repeated then "repeat+".data else []) ++ o.level] }
  else cmd

/-- `GlobalOptions` (part_003 lines 12-20); note the struct has no
`HideBanner` field. -/
structure GlobalOptions where
  log : Option LogOptions
  noStats : Bool
  overwrite : Option Bool
  report : Bool
deriving DecidableEq

/-- Translation of `GlobalOptions.adaptCmd` (part_003 lines 22-40):
`-hide_banner` is appended unconditionally, then log, overwrite, nostats,
report. -/
def GlobalOptions.adaptCmd (o : GlobalOptions) (cmd : Cmd) : Cmd :=
  let cmd := { cmd with args := cmd.args ++ ["-hide_banner".data] }
  let cmd := match o.log with | some l => l.adaptCmd cmd | none => cmd
  let cmd :=
    match o.overwrite with
    | some true => { cmd with args := cmd.args ++ ["-y".data] }
    | some false => { cmd with args := cmd.args ++ ["-n".data] }
    | none => cmd
  let cmd := if o.noStats then { cmd with args := cmd.args ++ ["-nostats".data] } else cmd
  if o.report then { cmd with args := cmd.args ++ ["-report".data] } else cmd

/-- `StreamSpecifier` (part_003 lines 186-190). -/
structure StreamSpecifier where
  index : Option ℤ
  name : GoStr
  typ : GoStr
deriving DecidableEq

/-- Translation of `StreamSpecifier.string` (part_003 lines 192-206). -/
def StreamSpecifier.string (s : StreamSpecifier) : GoStr :=
  if s.name ≠ [] then s.name
  else
    let o := if s.typ ≠ [] then s.typ else []
    match s.index with
    | some i => o ++ (if s.typ ≠ [] then [':'] else []) ++ intToString i
    | none => o

/-- `Ratio` (part_003 lines 582-584). -/
structure GoRatio where
  antecedent : ℤ
  consequent : ℤ
deriving DecidableEq

/-- Translation of `Ratio.string`: `"A/C"`. -/
def GoRatio.string (r : GoRatio) : GoStr :=
  intToString r.antecedent ++ ['/'] ++ intToString r.consequent

/-- `Scale` (part_003 lines 590-594): both dimensions optional. -/
structure Scale where
  height : Option ℤ
  width : Option ℤ
deriving DecidableEq

/-- Translation of `Scale.string` (part_003 lines 596-609): the height entry
is appended first, then the width entry, joined with `:`; a missing dimension
renders as `-1`. -/
def Scale.string (s : Scale) : GoStr :=
  let ss : List GoStr := []
  let ss := ss ++ [match s.height with
    | some h => "h=".data ++ intToString h
    | none => "h=-1".data]
  let ss := ss ++ [match s.width with
    | some w => "w=".data ++ intToString w
    | none => "w=-1".data]
  List.intercalate [':'] ss

/-- `FilterOptions` (part_003 lines 612-617). -/
structure FilterOptions where
  sar : Option GoRatio
  scale : Option Scale
  scaleNPP : Option Scale
  selectExpr : GoStr
deriving DecidableEq

/-- Translation of `FilterOptions.string` (part_003 lines 623-638): present
sub-filters rendered as `name=value`, joined by commas, in SAR, Scale,
ScaleNPP, Select order. -/
def FilterOptions.string (o : FilterOptions) : GoStr :=
  let items : List GoStr := []
  let items := match o.sar with
    | some r => items ++ ["setsar=".data ++ r.string]
    | none => items
  let items := match o.scale with
    | some s => items ++ ["scale=".data ++ s.string]
    | none => items
  let items := match o.scaleNPP with
    | some s => items ++ ["scale_npp=".data ++ s.string]
    | none => items
  let items := if o.selectExpr ≠ [] then items ++ ["select=".data ++ o.selectExpr] else items
  List.intercalate [','] items

/-- Dynamic value of a `StreamOption` (`interface{}` in Go); the formatters
inspect `string`, `Number`, `int` and `FilterOptions`. -/
inductive GoValue where
  | vStr (s : GoStr)
  | vNum (n : Number)
  | vInt (k : ℤ)
  | vFilter (f : FilterOptions)
  | vOther
deriving DecidableEq

/-- `StreamOption` (part_003 lines 313-316). -/
structure StreamOption where
  stream : Option StreamSpecifier
  value : GoValue
deriving DecidableEq

/-- The `":<specifier>"` suffix appended to a flag when a stream is set. -/
def specSuffix : Option StreamSpecifier → GoStr
  | some s => ':' :: s.string
  | none => []

/-- Error-wrapping text of `StreamOption.adaptCmd`. -/
def streamOptionErr (name e : GoStr) : GoStr :=
  "astiffmpeg: adapting cmd for stream option ".data ++ name ++ " failed: ".data ++ e

/-- Translation of `StreamOption.adaptCmd` (part_003 lines 318-329).  The
flag name (with specifier) is computed first, the value formatter runs next;
on formatter error the command is returned untouched, on success exactly the
flag and the formatted value are appended. -/
def StreamOption.adaptCmd (o : StreamOption) (cmd : Cmd) (name : GoStr)
    (fn : GoValue → Except GoStr GoStr) : Option GoStr × Cmd :=
  let f := name ++ specSuffix o.stream
  match fn o.value with
  | .error e => (some (streamOptionErr name e), cmd)
  | .ok v => (none, { cmd with args := cmd.args ++ [f, v] })

/-- The string formatter passed for `-c` / `-codec`. -/
def fmtString : GoValue → Except GoStr GoStr
  | .vStr s => .ok s
  | _ => .error "astiffmpeg: value should be a string".data

/-- The `Number` formatter passed for `-b` / `-maxrate` / `-minrate`. -/
def fmtNumber : GoValue → Except GoStr GoStr
  | .vNum n => .ok n.string
  | _ => .error "astiffmpeg: value should be a Number".data

/-- The int formatter passed for `-q` / `-frames`. -/
def fmtInt : GoValue → Except GoStr GoStr
  | .vInt k => .ok (intToString k)
  | _ => .error "astiffmpeg: value should be an int".data

/-- The `FilterOptions` formatter passed for `-filter`. -/
def fmtFilter : GoValue → Except GoStr GoStr
  | .vFilter f => .ok f.string
  | _ => .error "astiffmpeg: value should be a FilterOptions".data

/-- The `for idx, ro := range` loops of `EncodingOptions.adaptCmd`: each
entry goes through `StreamOption.adaptCmd`; the first error stops the loop
(keeping the appends already made, as the Go code mutates `cmd` in place). -/
def streamOptionLoop (name : GoStr) (fn : GoValue → Except GoStr GoStr) :
    List StreamOption → Cmd → Option GoStr × Cmd
  | [], cmd => (none, cmd)
  | so :: rest, cmd =>
    match so.adaptCmd cmd name fn with
    | (some e, cmd') => (some e, cmd')
    | (none, cmd') => streamOptionLoop name fn rest cmd'

/-- `ComplexFilterOption` (part_003 lines 400-404). -/
structure ComplexFilterOption where
  filters : List GoStr
  inputStreams : List StreamSpecifier
  outputStreams : List StreamSpecifier
deriving DecidableEq

/-- Rendering of one `ComplexFilterOption` inside the `-filter_complex`
value: bracketed input streams, comma-joined filters, bracketed output
streams. -/
def complexFilterRender (cf : ComplexFilterOption) : GoStr :=
  (cf.inputStreams.flatMap (fun i => '[' :: i.string ++ [']']))
    ++ List.intercalate [','] cf.filters
    ++ (cf.outputStreams.flatMap (fun s => '[' :: s.string ++ [']']))

/-- `EncodingOptions` (part_003 lines 406-433). -/
structure EncodingOptions where
  audioSamplerate : Option ℤ
  bFrames : Option ℤ
  bitrate : List StreamOption
  bStrategy : Option ℤ
  bufSize : Option Number
  codec : List StreamOption
  coder : GoStr
  complexFilter : GoStr
  complexFilters : List ComplexFilterOption
  constantQuality : Option ℚ
  crf : Option ℤ
  filters : List StreamOption
  framerate : Option ℚ
  frames : List StreamOption
  gop : Option ℤ
  keyintMin : Option ℤ
  level : Option ℚ
  maxrate : List StreamOption
  minrate : List StreamOption
  preset : GoStr
  profile : GoStr
  quality : List StreamOption
  rateControl : GoStr
  scThreshold : Option ℤ
  tune : GoStr
deriving DecidableEq

/-- Appends of `EncodingOptions.adaptCmd` between its start and the `-b`
loop: `-ar`, `-bf`. -/
def encStage1 (o : EncodingOptions) (cmd : Cmd) : Cmd :=
  let cmd := match o.audioSamplerate with
    | some n => { cmd with args := cmd.args ++ ["-ar".data, intToString n] }
    | none => cmd
  match o.bFrames with
  | some n => { cmd with args := cmd.args ++ ["-bf".data, intToString n] }
  | none => cmd

/-- Appends between the `-b` and `-codec` loops: `-b_strategy`,
`-bufsize`. -/
def encStage2 (o : EncodingOptions) (cmd : Cmd) : Cmd :=
  let cmd := match o.bStrategy with
    | some n => { cmd with args := cmd.args ++ ["-b_strategy".data, intToString n] }
    | none => cmd
  match o.bufSize with
  | some n => { cmd with args := cmd.args ++ ["-bufsize".data, n.string] }
  | none => cmd

/-- Appends between the `-codec` and `-filter` loops: `-coder`, the
`-filter_complex` chain (the literal string takes precedence over the
structured list), `-cq`, `-crf`. -/
def encStage3 (o : EncodingOptions) (cmd : Cmd) : Cmd :=
  let cmd := if o.coder ≠ [] then { cmd with args := cmd.args ++ ["-coder".data, o.coder] } else cmd
  let cmd :=
    if o.complexFilter ≠ [] then
      { cmd with args := cmd.args ++ ["-filter_complex".data, o.complexFilter] }
    else if o.complexFilters ≠ [] then
      { cmd with args := cmd.args ++ ["-filter_complex".data,
          List.intercalate [';'] (o.complexFilters.map complexFilterRender)] }
    else cmd
  let cmd := match o.constantQuality with
    | some q => { cmd with args := cmd.args ++ ["-cq".data, goFormatFloat 3 q] }
    | none => cmd
  match o.crf with
  | some n => { cmd with args := cmd.args ++ ["-crf".data, intToString n] }
  | none => cmd

/-- Appends between the `-filter` and `-maxrate` loops: `-r`, `-g`,
`-keyint_min`, `-level` (1-decimal formatting). -/
def encStage4 (o : EncodingOptions) (cmd : Cmd) : Cmd :=
  let cmd := match o.framerate with
    | some q => { cmd with args := cmd.args ++ ["-r".data, goFormatFloat 3 q] }
    | none => cmd
  let cmd := match o.gop with
    | some n => { cmd with args := cmd.args ++ ["-g".data, intToString n] }
    | none => cmd
  let cmd := match o.keyintMin with
    | some n => { cmd with args := cmd.args ++ ["-keyint_min".data, intToString n] }
    | none => cmd
  match o.level with
  | some q => { cmd with args := cmd.args ++ ["-level".data, goFormatFloat 1 q] }
  | none => cmd

/-- Appends between the `-minrate` and `-q` loops: `-preset`, `-profile`. -/
def encStage5 (o : EncodingOptions) (cmd : Cmd) : Cmd :=
  let cmd := if o.preset ≠ [] then { cmd with args := cmd.args ++ ["-preset".data, o.preset] } else cmd
  if o.profile ≠ [] then { cmd with args := cmd.args ++ ["-profile".data, o.profile] } else cmd

/-- Appends between the `-q` and `-frames` loops: `-rc`, `-sc_threshold`,
`-tune`. -/
def encStage6 (o : EncodingOptions) (cmd : Cmd) : Cmd :=
  let cmd := if o.rateControl ≠ [] then { cmd with args := cmd.args ++ ["-rc".data, o.rateControl] } else cmd
  let cmd := match o.scThreshold with
    | some n => { cmd with args := cmd.args ++ ["-sc_threshold".data, intToString n] }
    | none => cmd
  if o.tune ≠ [] then { cmd with args := cmd.args ++ ["-tune".data, o.tune] } else cmd

/-- Translation of `EncodingOptions.adaptCmd` (part_003 lines 435-579): the
fixed stage sequence with the seven stream-option loops; the first loop error
aborts with the command state reached so far. -/
def EncodingOptions.adaptCmd (o : EncodingOptions) (cmd : Cmd) : Option GoStr × Cmd :=
  let c := encStage1 o cmd
  match streamOptionLoop "-b".data fmtNumber o.bitrate c with
  | (some e, c) => (some e, c)
  | (none, c) =>
  let c := encStage2 o c
  match streamOptionLoop "-codec".data fmtString o.codec c with
  | (some e, c) => (some e, c)
  | (none, c) =>
  let c := encStage3 o c
  match streamOptionLoop "-filter".data fmtFilter o.filters c with
  | (some e, c) => (some e, c)
  | (none, c) =>
  let c := encStage4 o c
  match streamOptionLoop "-maxrate".data fmtNumber o.maxrate c with
  | (some e, c) => (some e, c)
  | (none, c) =>
  match streamOptionLoop "-minrate".data fmtNumber o.minrate c with
  | (some e, c) => (some e, c)
  | (none, c) =>
  let c := encStage5 o c
  match streamOptionLoop "-q".data fmtInt o.quality c with
  | (some e, c) => (some e, c)
  | (none, c) =>
  let c := encStage6 o c
  match streamOptionLoop "-frames".data fmtInt o.frames c with
  | (some e, c) => (some e, c)
  | (none, c) => (none, c)

/-- The exact token block a stream-option loop appends on success: for each
entry, the flag (with specifier suffix) then the formatted value. -/
def loopRender (name : GoStr) (fn : GoValue → Except GoStr GoStr)
    (l : List StreamOption) : List GoStr :=
  l.flatMap (fun so => [name ++ specSuffix so.stream,
    match fn so.value with | .ok v => v | .error _ => []])

/-- The `Number` rendering of a stream-option value (empty for non-`Number`
dynamic types, which the formatter rejects anyway). -/
def numberValueString : GoValue → GoStr
  | .vNum n => n.string
  | _ => []

/-- The remainder of `numberFromString`'s input after stripping the optional
trailing `B` and then the optional trailing `i`. -/
def postStripBI (s : GoStr) : GoStr :=
  let s1 := if hasSuffix s ['B'] then trimSuffix s ['B'] else s
  if hasSuffix s1 ['i'] then trimSuffix s1 ['i'] else s1

/-- The numeric remainder `numberFromString` hands to the float parser: the
`B`/`i`-stripped text, with one more trailing non-digit character stripped as
the prefix. -/
def numericRem (s : GoStr) : GoStr :=
  match (postStripBI s).getLast? with
  | none => []
  | some c => if (goAtoi [c]).isNone then (postStripBI s).dropLast else postStripBI s

/-- The prefix letters the spec defines for `NumberShorthand`. -/
def validPfxChars : List Char := ['k', 'K', 'm', 'M', 'g', 'G', 't', 'T', 'p', 'P']

/-! ## Basic lemmas about the string models -/

attribute [local semireducible] Rat.add Rat.mul Rat.inv Rat.sub

theorem splitOnChar_ne_nil (c : Char) (l : GoStr) : splitOnChar c l ≠ [] := by
  induction l with
  | nil => simp [splitOnChar]
  | cons x xs ih =>
    simp only [splitOnChar]
    cases h : splitOnChar c xs with
    | nil => simp
    | cons y ys => by_cases hx : x = c <;> simp [hx]

theorem splitOnChar_no_sep (c : Char) (t : GoStr) (h : ∀ a ∈ t, a ≠ c) :
    splitOnChar c t = [t] := by
  induction t with
  | nil => rfl
  | cons x xs ih =>
    have hx : x ≠ c := h x (by simp)
    have ih' := ih (fun a ha => h a (by simp [ha]))
    simp [splitOnChar, ih', hx]

theorem splitOnChar_append_no_sep (c : Char) (l t : GoStr) (h : ∀ a ∈ t, a ≠ c) :
    splitOnChar c (l ++ t) = appendToLast t (splitOnChar c l) := by
  induction l with
  | nil =>
    simp only [List.nil_append, splitOnChar_no_sep c t h, splitOnChar, appendToLast]
  | cons x xs ih =>
    cases hs : splitOnChar c xs with
    | nil => exact absurd hs (splitOnChar_ne_nil c xs)
    | cons y ys =>
      rw [hs] at ih
      have e1 : splitOnChar c ((x :: xs) ++ t) =
          match splitOnChar c (xs ++ t) with
          | [] => [[]]
          | y :: ys => if x = c then [] :: y :: ys else (x :: y) :: ys := rfl
      have e2 : splitOnChar c (x :: xs) =
          match splitOnChar c xs with
          | [] => [[]]
          | y :: ys => if x = c then [] :: y :: ys else (x :: y) :: ys := rfl
      rw [e1, e2, hs, ih]
      cases ys with
      | nil => by_cases hx : x = c <;> simp [hx, appendToLast]
      | cons z zs => by_cases hx : x = c <;> simp [hx, appendToLast]

theorem appendToLast_ne_nil (t : GoStr) (l : List GoStr) (h : l ≠ []) :
    appendToLast t l ≠ [] := by
  cases l with
  | nil => exact absurd rfl h
  | cons y ys => cases ys <;> simp [appendToLast]

theorem appendToLast_length (t : GoStr) (l : List GoStr) :
    (appendToLast t l).length = l.length := by
  induction l with
  | nil => rfl
  | cons y ys ih =>
    cases ys with
    | nil => rfl
    | cons z zs => simpa [appendToLast] using ih

theorem appendToLast_getD (t : GoStr) (l : List GoStr) (i : ℕ) (h : i + 1 < l.length) :
    (appendToLast t l).getD i [] = l.getD i [] := by
  induction l generalizing i with
  | nil => simp at h
  | cons y ys ih =>
    cases ys with
    | nil => simp at h
    | cons z zs =>
      cases i with
      | zero => rfl
      | succ j =>
        simp only [appendToLast, List.getD_cons_succ]
        exact ih j (by simpa using h)

theorem appendToLast_getLast? (t : GoStr) (l : List GoStr) (h : l ≠ []) :
    (appendToLast t l).getLast? = (l.getLast?).map (fun y => y ++ t) := by
  induction l with
  | nil => exact absurd rfl h
  | cons y ys ih =>
    cases ys with
    | nil => simp [appendToLast]
    | cons z zs =>
      have ih' := ih (by simp)
      have hr : (y :: z :: zs).getLast? = (z :: zs).getLast? := List.getLast?_cons_cons
      cases hz : appendToLast t (z :: zs) with
      | nil => exact absurd hz (appendToLast_ne_nil t (z :: zs) (by simp))
      | cons w ws =>
        calc (appendToLast t (y :: z :: zs)).getLast?
            = (y :: w :: ws).getLast? := by
              rw [show appendToLast t (y :: z :: zs) = y :: appendToLast t (z :: zs) from rfl,
                hz]
          _ = (w :: ws).getLast? := List.getLast?_cons_cons
          _ = (appendToLast t (z :: zs)).getLast? := by rw [hz]
          _ = Option.map (fun y => y ++ t) (z :: zs).getLast? := ih'
          _ = Option.map (fun y => y ++ t) (y :: z :: zs).getLast? := by rw [hr]

theorem hasSuffix_append (a b : GoStr) : hasSuffix (a ++ b) b = true := by
  simp only [hasSuffix, List.reverse_append, decide_eq_true_eq]
  rw [show b.length = b.reverse.length by simp]
  exact List.take_left b.reverse a.reverse

theorem trimSuffix_append (a b : GoStr) : trimSuffix (a ++ b) b = a := by
  simp only [trimSuffix, hasSuffix_append, if_true]
  rw [show (a ++ b).length - b.length = a.length by simp]
  exact List.take_left a b

theorem hasSuffix_single_iff (l : GoStr) (c : Char) :
    hasSuffix l [c] = true ↔ l.getLast? = some c := by
  simp only [hasSuffix, decide_eq_true_eq]
  rw [← List.head?_reverse]
  cases l.reverse with
  | nil => simp
  | cons x xs => simp [List.take_succ_cons, eq_comm]

theorem hasSuffix_single_of_getLast (l : GoStr) (c d : Char) (h : l.getLast? = some d)
    (hne : d ≠ c) : hasSuffix l [c] = false := by
  rw [← Bool.not_eq_true, hasSuffix_single_iff, h]
  simp [hne]

theorem trimSuffix_of_not (l suf : GoStr) (h : hasSuffix l suf = false) :
    trimSuffix l suf = l := by
  simp [trimSuffix, h]

theorem getLast?_append_ne_nil (u v : GoStr) (h : v ≠ []) :
    (u ++ v).getLast? = v.getLast? := List.getLast?_append_of_ne_nil u h

theorem trimSuffix_cons_single (c : Char) (w : GoStr) (hw : w ≠ []) :
    trimSuffix (c :: w) ['.'] = c :: trimSuffix w ['.'] := by
  have hl : (c :: w).getLast? = w.getLast? := by
    cases w with
    | nil => exact absurd rfl hw
    | cons a l => exact List.getLast?_cons_cons
  by_cases h : hasSuffix w ['.'] = true
  · have h2 : hasSuffix (c :: w) ['.'] = true := by
      rw [hasSuffix_single_iff, hl, ← hasSuffix_single_iff]; exact h
    have hwl : 1 ≤ w.length := by
      cases w with
      | nil => exact absurd rfl hw
      | cons a l => simp
    simp only [trimSuffix, h2, h, if_true, List.length_cons]
    rw [show w.length + 1 - ([].length + 1) = (w.length - ([].length + 1)) + 1 by
      simp; omega, List.take_succ_cons]
  · have h2 : hasSuffix (c :: w) ['.'] = false := by
      rw [← Bool.not_eq_true, hasSuffix_single_iff, hl, ← hasSuffix_single_iff]
      simpa using h
    rw [trimSuffix_of_not _ _ h2, trimSuffix_of_not _ _ (by simpa using h)]

/-! ## Digit and decimal-rendering lemmas -/

theorem digitChar_spec : ∀ d : ℕ, d < 10 →
    (Nat.digitChar d).isDigit = true ∧ digitVal (Nat.digitChar d) = d ∧
      ((Nat.digitChar d = '0') ↔ d = 0) := by decide

theorem isDigit_not_special (c : Char) (h : c.isDigit = true) :
    c ≠ '-' ∧ c ≠ '+' ∧ c ≠ '.' ∧ c ≠ 'B' ∧ c ≠ 'i' := by
  refine ⟨?_, ?_, ?_, ?_, ?_⟩ <;> (intro hc; subst hc; simp [Char.isDigit] at h)

theorem parseNat_concat (l : GoStr) (c : Char) :
    parseNat (l ++ [c]) = parseNat l * 10 + digitVal c := by
  simp [parseNat, List.foldl_append]

theorem natDigitsF_parse : ∀ fuel n, n < fuel → parseNat (natDigitsF fuel n) = n := by
  intro fuel
  induction fuel with
  | zero => intro n h; omega
  | succ f ih =>
    intro n h
    by_cases h10 : n < 10
    · simp [natDigitsF, h10, parseNat, (digitChar_spec n h10).2.1]
    · have hdl : n / 10 < n := Nat.div_lt_self (by omega) (by omega)
      have hdiv : n / 10 < f := by omega
      have hmod := (digitChar_spec (n % 10) (Nat.mod_lt _ (by omega))).2.1
      simp only [natDigitsF, h10, if_false, parseNat_concat, ih _ hdiv, hmod]
      omega

theorem natDigitsF_digits : ∀ fuel n, n < fuel →
    ∀ c ∈ natDigitsF fuel n, c.isDigit = true := by
  intro fuel
  induction fuel with
  | zero => intro n h; omega
  | succ f ih =>
    intro n h c hc
    by_cases h10 : n < 10
    · simp only [natDigitsF, h10, if_true, List.mem_singleton] at hc
      subst hc; exact (digitChar_spec n h10).1
    · have hdl : n / 10 < n := Nat.div_lt_self (by omega) (by omega)
      simp only [natDigitsF, h10, if_false, List.mem_append, List.mem_singleton] at hc
      rcases hc with hc | hc
      · exact ih _ (by omega) c hc
      · subst hc; exact (digitChar_spec (n % 10) (Nat.mod_lt _ (by omega))).1

theorem natDigitsF_ne_nil : ∀ fuel n, n < fuel → natDigitsF fuel n ≠ [] := by
  intro fuel
  induction fuel with
  | zero => intro n h; omega
  | succ f ih =>
    intro n h
    by_cases h10 : n < 10 <;> simp [natDigitsF, h10]

theorem parseNat_natDigits (n : ℕ) : parseNat (natDigits n) = n :=
  natDigitsF_parse (n + 1) n (Nat.lt_succ_self n)

theorem natDigits_digits (n : ℕ) : ∀ c ∈ natDigits n, c.isDigit = true :=
  natDigitsF_digits (n + 1) n (Nat.lt_succ_self n)

theorem natDigits_ne_nil (n : ℕ) : natDigits n ≠ [] :=
  natDigitsF_ne_nil (n + 1) n (Nat.lt_succ_self n)

theorem natDigits_getLast_digit (n : ℕ) :
    ∃ d, (natDigits n).getLast? = some d ∧ d.isDigit = true := by
  have hne := natDigits_ne_nil n
  refine ⟨(natDigits n).getLast hne, List.getLast?_eq_getLast _ hne, ?_⟩
  exact natDigits_digits n _ (List.getLast_mem hne)

theorem natDigits_head_digit (n : ℕ) : ((natDigits n).headD ' ').isDigit = true := by
  have hne := natDigits_ne_nil n
  cases h : natDigits n with
  | nil => exact absurd h hne
  | cons a l =>
    have := natDigits_digits n a (by rw [h]; simp)
    simpa using this

theorem takeWhile_digits_append (p : Char → Bool) (a r : GoStr)
    (ha : ∀ c ∈ a, p c = true) (hr : r = [] ∨ ∃ x xs, r = x :: xs ∧ p x = false) :
    (a ++ r).takeWhile p = a ∧ (a ++ r).dropWhile p = r := by
  induction a with
  | nil =>
    rcases hr with rfl | ⟨x, xs, rfl, hx⟩
    · simp
    · simp [List.takeWhile, List.dropWhile, hx]
  | cons c a ih =>
    have hc := ha c (by simp)
    have ih' := ih (fun d hd => ha d (by simp [hd]))
    simp [List.takeWhile_cons, List.dropWhile_cons, hc, ih'.1, ih'.2]

theorem goParseFloatMag_digits (a : GoStr) (hne : a ≠ [])
    (ha : ∀ c ∈ a, c.isDigit = true) :
    goParseFloatMag a = some ((parseNat a : ℚ)) := by
  have hspan := takeWhile_digits_append Char.isDigit a [] ha (Or.inl rfl)
  simp only [List.append_nil] at hspan
  rw [goParseFloatMag, hspan.1, hspan.2]
  simp [hne]

theorem goParseFloatMag_digits_dot (a t : GoStr) (hne : a ≠ [])
    (ha : ∀ c ∈ a, c.isDigit = true) (ht : ∀ c ∈ t, c.isDigit = true) :
    goParseFloatMag (a ++ '.' :: t) =
      some ((parseNat a : ℚ) + (parseNat t : ℚ) / (10 : ℚ) ^ t.length) := by
  have hspan := takeWhile_digits_append Char.isDigit a ('.' :: t) ha
    (Or.inr ⟨'.', t, rfl, by decide⟩)
  rw [goParseFloatMag, hspan.1, hspan.2]
  show (if t.all Char.isDigit = true ∧ (a ≠ [] ∨ t ≠ []) then
      some ((parseNat a : ℚ) + (parseNat t : ℚ) / (10 : ℚ) ^ t.length) else none) = _
  rw [if_pos ⟨by simpa [List.all_eq_true] using ht, Or.inl hne⟩]

theorem goParseFloat_of_mag (a : GoStr) (c : Char) (hh : a.headD ' ' = c)
    (hc : c ≠ '-' ∧ c ≠ '+') : goParseFloat a = goParseFloatMag a := by
  have hsign : ¬(a.headD ' ' = '-' ∨ a.headD ' ' = '+') := by
    rw [hh]; simp [hc.1, hc.2]
  have hneg : a.headD ' ' ≠ '-' := by rw [hh]; exact hc.1
  simp only [goParseFloat, if_neg hsign]
  have e2 : (fun q : ℚ => if a.headD ' ' = '-' then -q else q) = (fun q : ℚ => q) := by
    funext q; rw [if_neg hneg]
  rw [e2]
  cases hm : goParseFloatMag a <;> simp [hm]

theorem goParseFloat_digits (a : GoStr) (hne : a ≠ []) (ha : ∀ c ∈ a, c.isDigit = true) :
    goParseFloat a = some ((parseNat a : ℚ)) := by
  obtain ⟨c, a', rfl⟩ := List.exists_cons_of_ne_nil hne
  have hc := ha c (by simp)
  obtain ⟨h1, h2, _, _, _⟩ := isDigit_not_special c hc
  rw [goParseFloat_of_mag (c :: a') c rfl ⟨h1, h2⟩]
  exact goParseFloatMag_digits _ hne ha

theorem goParseFloat_digits_dot (a t : GoStr) (hne : a ≠ [])
    (ha : ∀ c ∈ a, c.isDigit = true) (ht : ∀ c ∈ t, c.isDigit = true) :
    goParseFloat (a ++ '.' :: t) =
      some ((parseNat a : ℚ) + (parseNat t : ℚ) / (10 : ℚ) ^ t.length) := by
  obtain ⟨c, a', rfl⟩ := List.exists_cons_of_ne_nil hne
  have hc := ha c (by simp)
  obtain ⟨h1, h2, _, _, _⟩ := isDigit_not_special c hc
  rw [goParseFloat_of_mag ((c :: a') ++ '.' :: t) c rfl ⟨h1, h2⟩]
  exact goParseFloatMag_digits_dot _ _ hne ha ht

theorem goParseFloat_neg_cons (a : GoStr)
    (hns : a.headD ' ' ≠ '-' ∧ a.headD ' ' ≠ '+') :
    goParseFloat ('-' :: a) = (goParseFloat a).map (fun v => -v) := by
  cases a with
  | nil => decide
  | cons c a' =>
    have h1 : c ≠ '-' := by simpa using hns.1
    have h2 : c ≠ '+' := by simpa using hns.2
    have hsign : ¬((c :: a').headD ' ' = '-' ∨ (c :: a').headD ' ' = '+') := by
      simp [h1, h2]
    simp only [goParseFloat, List.headD_cons, List.tail_cons, if_pos (Or.inl rfl),
      if_neg hsign]
    cases hm : goParseFloatMag (c :: a') <;> simp [hm, h1, h2]

theorem ratTrunc_eq_floor (q : ℚ) (h : 0 ≤ q) : ratTrunc q = ⌊q⌋ := by
  have hnum : 0 ≤ q.num := Rat.num_nonneg.mpr h
  rw [ratTrunc, Rat.floor_def]
  exact Int.tdiv_eq_ediv hnum (by positivity)

theorem ratTrunc_int_add_half (k : ℤ) (hk : 0 ≤ k) :
    ratTrunc ((k : ℚ) + 1 / 2) = k := by
  rw [ratTrunc_eq_floor _ (by positivity)]
  rw [show ((k : ℚ) + 1 / 2) = (1 / 2 : ℚ) + (k : ℤ) by ring]
  rw [Int.floor_add_int]
  norm_num

theorem dropWhile_append_left {α : Type} (p : α → Bool) (u w : List α)
    (h : u.dropWhile p ≠ []) : (u ++ w).dropWhile p = u.dropWhile p ++ w := by
  induction u with
  | nil => exact absurd rfl h
  | cons a u ih =>
    by_cases hp : p a
    · simp only [List.dropWhile_cons, hp, if_true] at h
      simp only [List.cons_append, List.dropWhile_cons, hp, if_true]
      exact ih h
    · simp [List.dropWhile_cons, hp]

theorem fracDigits_three (m : ℕ) :
    fracDigits 3 m = [Nat.digitChar (m / 100 % 10), Nat.digitChar (m / 10 % 10),
      Nat.digitChar (m % 10)] := by
  have h3 : (List.range 3).reverse = [2, 1, 0] := by decide
  simp only [fracDigits, h3, List.map_cons, List.map_nil]
  norm_num

theorem parseNat_single (x : Char) : parseNat [x] = digitVal x := by
  simp [parseNat]

theorem parseNat_pair (x y : Char) : parseNat [x, y] = 10 * digitVal x + digitVal y := by
  simp [parseNat]
  ring

theorem parseNat_triple (x y z : Char) :
    parseNat [x, y, z] = 100 * digitVal x + 10 * digitVal y + digitVal z := by
  simp [parseNat]
  ring

theorem headD_append_of_ne_nil (a r : GoStr) (h : a ≠ []) :
    (a ++ r).headD ' ' = a.headD ' ' := by
  cases a with
  | nil => exact absurd rfl h
  | cons c a' => simp

theorem trimSuffix_dot_of_last_digit (l : GoStr) (d : Char) (hl : l.getLast? = some d)
    (hd : d.isDigit = true) : trimSuffix l ['.'] = l :=
  trimSuffix_of_not _ _ (hasSuffix_single_of_getLast l '.' d hl (isDigit_not_special d hd).2.2.1)

theorem getLast?_concat_single (u : GoStr) (c : Char) : (u ++ [c]).getLast? = some c := by
  rw [List.getLast?_concat]

theorem trimFmt_cases (a : GoStr)
    (x y z : Char) (hx : x.isDigit = true) (hy : y.isDigit = true)
    (hz : z.isDigit = true) :
    (z ≠ '0' → trimSuffix (dropTrailingZeros (a ++ '.' :: [x, y, z])) ['.'] =
      a ++ '.' :: [x, y, z]) ∧
    (z = '0' → y ≠ '0' → trimSuffix (dropTrailingZeros (a ++ '.' :: [x, y, z])) ['.'] =
      a ++ '.' :: [x, y]) ∧
    (z = '0' → y = '0' → x ≠ '0' →
      trimSuffix (dropTrailingZeros (a ++ '.' :: [x, y, z])) ['.'] = a ++ '.' :: [x]) ∧
    (z = '0' → y = '0' → x = '0' →
      trimSuffix (dropTrailingZeros (a ++ '.' :: [x, y, z])) ['.'] = a) := by
  have hrev : (a ++ '.' :: [x, y, z]).reverse = z :: y :: x :: '.' :: a.reverse := by
    simp
  refine ⟨?_, ?_, ?_, ?_⟩
  · intro hz0
    have hW : dropTrailingZeros (a ++ '.' :: [x, y, z]) = a ++ '.' :: [x, y, z] := by
      rw [dropTrailingZeros, hrev]
      rw [List.dropWhile_cons_of_neg (by simpa using hz0)]
      simp
    rw [hW]
    exact trimSuffix_dot_of_last_digit _ z
      (by rw [show a ++ '.' :: [x, y, z] = (a ++ ['.', x, y]) ++ [z] by simp]
          exact getLast?_concat_single _ z) hz
  · intro hz0 hy0
    have hW : dropTrailingZeros (a ++ '.' :: [x, y, z]) = a ++ '.' :: [x, y] := by
      rw [dropTrailingZeros, hrev]
      rw [List.dropWhile_cons_of_pos (by simpa using hz0),
        List.dropWhile_cons_of_neg (by simpa using hy0)]
      simp
    rw [hW]
    exact trimSuffix_dot_of_last_digit _ y
      (by rw [show a ++ '.' :: [x, y] = (a ++ ['.', x]) ++ [y] by simp]
          exact getLast?_concat_single _ y) hy
  · intro hz0 hy0 hx0
    have hW : dropTrailingZeros (a ++ '.' :: [x, y, z]) = a ++ '.' :: [x] := by
      rw [dropTrailingZeros, hrev]
      rw [List.dropWhile_cons_of_pos (by simpa using hz0),
        List.dropWhile_cons_of_pos (by simpa using hy0),
        List.dropWhile_cons_of_neg (by simpa using hx0)]
      simp
    rw [hW]
    exact trimSuffix_dot_of_last_digit _ x
      (by rw [show a ++ '.' :: [x] = (a ++ ['.']) ++ [x] by simp]
          exact getLast?_concat_single _ x) hx
  · intro hz0 hy0 hx0
    have hW : dropTrailingZeros (a ++ '.' :: [x, y, z]) = a ++ ['.'] := by
      rw [dropTrailingZeros, hrev]
      rw [List.dropWhile_cons_of_pos (by simpa using hz0),
        List.dropWhile_cons_of_pos (by simpa using hy0),
        List.dropWhile_cons_of_pos (by simpa using hx0),
        List.dropWhile_cons_of_neg (by decide)]
      simp
    rw [hW]
    exact trimSuffix_append a ['.']

theorem trimFmtNN_spec (q : ℚ) (k : ℕ) (hk : q * 1000 = (k : ℚ)) :
    goParseFloat (trimSuffix (dropTrailingZeros (goFormatFloatNN 3 q)) ['.']) = some q ∧
    trimSuffix (dropTrailingZeros (goFormatFloatNN 3 q)) ['.'] ≠ [] ∧
    (∃ d, (trimSuffix (dropTrailingZeros (goFormatFloatNN 3 q)) ['.']).getLast? = some d ∧
      d.isDigit = true) ∧
    ((trimSuffix (dropTrailingZeros (goFormatFloatNN 3 q)) ['.']).headD ' ').isDigit = true ∧
    (∀ n : ℕ, q = (n : ℚ) →
      trimSuffix (dropTrailingZeros (goFormatFloatNN 3 q)) ['.'] = natDigits n) := by
  have hm : (ratTrunc (q * (10 : ℚ) ^ 3 + 1 / 2)).toNat = k := by
    have e : q * (10 : ℚ) ^ 3 + 1 / 2 = ((k : ℤ) : ℚ) + 1 / 2 := by
      push_cast
      rw [show q * (10 : ℚ) ^ 3 = q * 1000 by ring, hk]
    rw [e, ratTrunc_int_add_half _ (by positivity)]
    simp
  have hq : q = (k : ℚ) / 1000 := by
    rw [eq_div_iff (by norm_num : (1000 : ℚ) ≠ 0)]
    exact hk
  have hNN : goFormatFloatNN 3 q = natDigits (k / 1000) ++ '.' ::
      [Nat.digitChar (k % 1000 / 100), Nat.digitChar (k % 1000 / 10 % 10),
        Nat.digitChar (k % 1000 % 10)] := by
    rw [goFormatFloatNN]
    rw [hm, fracDigits_three]
    have e1 : k / 10 ^ 3 = k / 1000 := by norm_num
    have e2 : k / 100 % 10 = k % 1000 / 100 := by omega
    have e3 : k / 10 % 10 = k % 1000 / 10 % 10 := by omega
    have e4 : k % 10 = k % 1000 % 10 := by omega
    rw [e1, e2, e3, e4]
  set a := k / 1000 with ha
  set b := k % 1000 with hb
  have hblt : b < 1000 := by omega
  have hkab : k = 1000 * a + b := by omega
  have hAne := natDigits_ne_nil a
  have hAd := natDigits_digits a
  have hAparse := parseNat_natDigits a
  have hx := (digitChar_spec (b / 100) (by omega)).1
  have hy := (digitChar_spec (b / 10 % 10) (by omega)).1
  have hz := (digitChar_spec (b % 10) (by omega)).1
  have hx0 := (digitChar_spec (b / 100) (by omega)).2.2
  have hy0 := (digitChar_spec (b / 10 % 10) (by omega)).2.2
  have hz0 := (digitChar_spec (b % 10) (by omega)).2.2
  have hxv := (digitChar_spec (b / 100) (by omega)).2.1
  have hyv := (digitChar_spec (b / 10 % 10) (by omega)).2.1
  have hzv := (digitChar_spec (b % 10) (by omega)).2.1
  have hcase := trimFmt_cases (natDigits a) (Nat.digitChar (b / 100))
    (Nat.digitChar (b / 10 % 10)) (Nat.digitChar (b % 10)) hx hy hz
  rw [hNN]
  by_cases hbz : b % 10 = 0
  · by_cases hby : b / 10 % 10 = 0
    · by_cases hbx : b / 100 = 0
      · -- all fraction digits are zero: b = 0
        have hb0 : b = 0 := by omega
        have hN := hcase.2.2.2 (hz0.mpr hbz) (hy0.mpr hby) (hx0.mpr hbx)
        rw [hN]
        have hpar := goParseFloat_digits (natDigits a) hAne hAd
        have hqa : q = (a : ℚ) := by
          rw [hq, hkab, hb0]
          push_cast
          ring
        refine ⟨?_, hAne, natDigits_getLast_digit a, natDigits_head_digit a, ?_⟩
        · rw [hpar, hAparse, hqa]
        · intro n hn
          have : (a : ℚ) = (n : ℚ) := by rw [← hqa, hn]
          have : a = n := by exact_mod_cast this
          rw [this]
      · -- fraction ends after the first digit
        have hN := hcase.2.2.1 (hz0.mpr hbz) (hy0.mpr hby) (fun hc => hbx (hx0.mp hc))
        rw [hN]
        have hdvd : (100 : ℕ) ∣ b := by omega
        have hpar := goParseFloat_digits_dot (natDigits a) [Nat.digitChar (b / 100)]
          hAne hAd (by intro c hc; simp at hc; rw [hc]; exact hx)
        refine ⟨?_, by simp, ?_, ?_, ?_⟩
        · rw [hpar, hAparse, parseNat_single, hxv]
          congr 1
          rw [hq, hkab]
          have h100 : b / 100 * 100 = b := Nat.div_mul_cancel hdvd
          have hbQ : (b : ℚ) = ((b / 100 : ℕ) : ℚ) * 100 := by exact_mod_cast h100.symm
          push_cast
          rw [hbQ]
          field_simp
          ring
        · refine ⟨Nat.digitChar (b / 100), ?_, hx⟩
          rw [show natDigits a ++ '.' :: [Nat.digitChar (b / 100)] =
            (natDigits a ++ ['.']) ++ [Nat.digitChar (b / 100)] by simp]
          exact getLast?_concat_single _ _
        · rw [headD_append_of_ne_nil _ _ hAne]
          exact natDigits_head_digit a
        · intro n hn
          exfalso
          have : (k : ℚ) = ((1000 * n : ℕ) : ℚ) := by
            rw [← hk, hn]; push_cast; ring
          have hk' : k = 1000 * n := by exact_mod_cast this
          omega
    · -- fraction ends after two digits
      have hN := hcase.2.1 (hz0.mpr hbz) (fun hc => hby (hy0.mp hc))
      rw [hN]
      have hdvd : (10 : ℕ) ∣ b := by omega
      have hpar := goParseFloat_digits_dot (natDigits a)
        [Nat.digitChar (b / 100), Nat.digitChar (b / 10 % 10)] hAne hAd
        (by intro c hc; simp at hc; rcases hc with hc | hc <;> rw [hc] <;>
          first | exact hx | exact hy)
      refine ⟨?_, by simp, ?_, ?_, ?_⟩
      · rw [hpar, hAparse, parseNat_pair, hxv, hyv]
        have he : 10 * (b / 100) + b / 10 % 10 = b / 10 := by omega
        rw [he]
        congr 1
        rw [hq, hkab]
        have h10 : b / 10 * 10 = b := Nat.div_mul_cancel hdvd
        have hbQ : (b : ℚ) = ((b / 10 : ℕ) : ℚ) * 10 := by exact_mod_cast h10.symm
        push_cast
        rw [hbQ]
        field_simp
        ring
      · refine ⟨Nat.digitChar (b / 10 % 10), ?_, hy⟩
        rw [show natDigits a ++ '.' :: [Nat.digitChar (b / 100), Nat.digitChar (b / 10 % 10)] =
          (natDigits a ++ ['.', Nat.digitChar (b / 100)]) ++ [Nat.digitChar (b / 10 % 10)]
          by simp]
        exact getLast?_concat_single _ _
      · rw [headD_append_of_ne_nil _ _ hAne]
        exact natDigits_head_digit a
      · intro n hn
        exfalso
        have : (k : ℚ) = ((1000 * n : ℕ) : ℚ) := by
          rw [← hk, hn]; push_cast; ring
        have hk' : k = 1000 * n := by exact_mod_cast this
        omega
  · -- fraction keeps all three digits
    have hN := hcase.1 (fun hc => hbz (hz0.mp hc))
    rw [hN]
    have hpar := goParseFloat_digits_dot (natDigits a)
      [Nat.digitChar (b / 100), Nat.digitChar (b / 10 % 10), Nat.digitChar (b % 10)]
      hAne hAd
      (by intro c hc; simp at hc; rcases hc with hc | hc | hc <;> rw [hc] <;>
        first | exact hx | exact hy | exact hz)
    refine ⟨?_, by simp, ?_, ?_, ?_⟩
    · rw [hpar, hAparse, parseNat_triple, hxv, hyv, hzv]
      have he : 100 * (b / 100) + 10 * (b / 10 % 10) + b % 10 = b := by omega
      rw [he]
      congr 1
      rw [hq, hkab]
      push_cast
      field_simp
      ring
    · refine ⟨Nat.digitChar (b % 10), ?_, hz⟩
      rw [show natDigits a ++ '.' ::
          [Nat.digitChar (b / 100), Nat.digitChar (b / 10 % 10), Nat.digitChar (b % 10)] =
        (natDigits a ++ ['.', Nat.digitChar (b / 100), Nat.digitChar (b / 10 % 10)]) ++
          [Nat.digitChar (b % 10)] by simp]
      exact getLast?_concat_single _ _
    · rw [headD_append_of_ne_nil _ _ hAne]
      exact natDigits_head_digit a
    · intro n hn
      exfalso
      have : (k : ℚ) = ((1000 * n : ℕ) : ℚ) := by
        rw [← hk, hn]; push_cast; ring
      have hk' : k = 1000 * n := by exact_mod_cast this
      omega

theorem trimFmt_spec (q : ℚ) (k : ℤ) (hk : q * 1000 = (k : ℚ)) :
    goParseFloat (trimSuffix (dropTrailingZeros (goFormatFloat 3 q)) ['.']) = some q ∧
    trimSuffix (dropTrailingZeros (goFormatFloat 3 q)) ['.'] ≠ [] ∧
    (∃ d, (trimSuffix (dropTrailingZeros (goFormatFloat 3 q)) ['.']).getLast? = some d ∧
      d.isDigit = true) ∧
    (∀ n : ℤ, q = (n : ℚ) →
      trimSuffix (dropTrailingZeros (goFormatFloat 3 q)) ['.'] = intToString n) := by
  by_cases hq0 : q < 0
  · have hkneg : k < 0 := by
      by_contra h
      push_neg at h
      have h2 : (0 : ℚ) ≤ (k : ℚ) := by exact_mod_cast h
      nlinarith [hk]
    have hkQ : (-q) * 1000 = (((-k).toNat : ℕ) : ℚ) := by
      have h1 : ((-k).toNat : ℚ) = ((-k : ℤ) : ℚ) := by
        exact_mod_cast Int.toNat_of_nonneg (by omega : (0 : ℤ) ≤ -k)
      rw [h1]
      push_cast
      linarith [hk]
    obtain ⟨hparse, hne, ⟨d, hlast, hd⟩, hhead, hint⟩ := trimFmtNN_spec (-q) (-k).toNat hkQ
    have hfmt : goFormatFloat 3 q = '-' :: goFormatFloatNN 3 (-q) := by
      rw [goFormatFloat, if_pos hq0]
    set X := goFormatFloatNN 3 (-q) with hX
    set W := dropTrailingZeros X with hW
    have hWne : W ≠ [] := by
      intro h
      apply hne
      rw [h]
      decide
    have hrw : X.reverse.dropWhile (fun c => c = '0') = W.reverse := by
      rw [hW, dropTrailingZeros, List.reverse_reverse]
    have hdtz : dropTrailingZeros ('-' :: X) = '-' :: W := by
      have h1 : ('-' :: X).reverse = X.reverse ++ ['-'] := by simp
      rw [dropTrailingZeros, h1,
        dropWhile_append_left _ _ _ (by rw [hrw]; simpa using hWne), hrw]
      simp
    have hNfull : trimSuffix (dropTrailingZeros ('-' :: X)) ['.'] =
        '-' :: trimSuffix W ['.'] := by
      rw [hdtz, trimSuffix_cons_single '-' W hWne]
    rw [hfmt, hNfull]
    refine ⟨?_, by simp, ⟨d, ?_, hd⟩, ?_⟩
    · obtain ⟨hd1, hd2, _, _, _⟩ := isDigit_not_special _ hhead
      rw [goParseFloat_neg_cons _ ⟨hd1, hd2⟩, hparse]
      simp
    · cases hNc : trimSuffix W ['.'] with
      | nil => exact absurd hNc hne
      | cons a l =>
        rw [hNc] at hlast
        rw [List.getLast?_cons_cons]
        exact hlast
    · intro n hn
      have hneg_n : n < 0 := by
        have h2 : (n : ℚ) < 0 := by rw [← hn]; exact hq0
        exact_mod_cast h2
      have h1 : -q = (((-n).toNat : ℕ) : ℚ) := by
        have h2 : ((-n).toNat : ℚ) = ((-n : ℤ) : ℚ) := by
          exact_mod_cast Int.toNat_of_nonneg (by omega : (0 : ℤ) ≤ -n)
        rw [h2]
        push_cast
        rw [hn]
      rw [hint (-n).toNat h1, intToString, if_pos hneg_n]
  · push_neg at hq0
    have hknn : (0 : ℤ) ≤ k := by
      have h2 : (0 : ℚ) ≤ (k : ℚ) := by rw [← hk]; positivity
      exact_mod_cast h2
    have hkQ : q * 1000 = ((k.toNat : ℕ) : ℚ) := by
      have h1 : (k.toNat : ℚ) = ((k : ℤ) : ℚ) := by
        exact_mod_cast Int.toNat_of_nonneg hknn
      rw [h1]
      exact_mod_cast hk
    obtain ⟨hparse, hne, hlast, hhead, hint⟩ := trimFmtNN_spec q k.toNat hkQ
    have hfmt : goFormatFloat 3 q = goFormatFloatNN 3 q := by
      rw [goFormatFloat, if_neg (not_lt.mpr hq0)]
    rw [hfmt]
    refine ⟨hparse, hne, hlast, ?_⟩
    intro n hn
    have hnn : (0 : ℤ) ≤ n := by
      have h2 : (0 : ℚ) ≤ (n : ℚ) := by rw [← hn]; exact hq0
      exact_mod_cast h2
    have h1 : q = ((n.toNat : ℕ) : ℚ) := by
      have h2 : (n.toNat : ℚ) = ((n : ℤ) : ℚ) := by
        exact_mod_cast Int.toNat_of_nonneg hnn
      rw [h2]
      exact_mod_cast hn
    rw [hint n.toNat h1, intToString, if_neg (by omega)]

theorem validPfx_facts : ∀ c ∈ validPfxChars,
    c.isDigit = false ∧ c ≠ 'B' ∧ c ≠ 'i' ∧ c ≠ '.' := by decide

theorem goAtoi_single_isNone (c : Char) : (goAtoi [c]).isNone = !c.isDigit := by
  by_cases h1 : c = '-'
  · subst h1; decide
  · by_cases h2 : c = '+'
    · subst h2; decide
    · have hsign : ¬([c].headD ' ' = '-' ∨ [c].headD ' ' = '+') := by simp [h1, h2]
      simp only [goAtoi, if_neg hsign, goAtoiNat]
      cases hd : c.isDigit <;> simp [hd]

theorem numberFromString_strip_none (s2 : GoStr) (e : Char) (he : s2.getLast? = some e)
    (heB : e ≠ 'B') (hei : e ≠ 'i') :
    numberFromString s2 = nfsTail false false s2 := by
  have hnB := hasSuffix_single_of_getLast s2 'B' e he heB
  have hni := hasSuffix_single_of_getLast s2 'i' e he hei
  simp [numberFromString, hnB, hni]

theorem numberFromString_strip_i (s2 : GoStr) :
    numberFromString (s2 ++ ['i']) = nfsTail true false s2 := by
  have hlast : (s2 ++ ['i']).getLast? = some 'i' := getLast?_concat_single s2 'i'
  have h1 : hasSuffix (s2 ++ ['i']) ['B'] = false :=
    hasSuffix_single_of_getLast _ 'B' 'i' hlast (by decide)
  simp [numberFromString, h1, hasSuffix_append, trimSuffix_append]

theorem numberFromString_strip_b (s2 : GoStr) (e : Char) (he : s2.getLast? = some e)
    (hei : e ≠ 'i') :
    numberFromString (s2 ++ ['B']) = nfsTail false true s2 := by
  have hni := hasSuffix_single_of_getLast s2 'i' e he hei
  simp [numberFromString, hasSuffix_append, trimSuffix_append, hni]

theorem numberFromString_strip_ib (s2 : GoStr) :
    numberFromString (s2 ++ ['i'] ++ ['B']) = nfsTail true true s2 := by
  simp only [numberFromString, hasSuffix_append, trimSuffix_append, eq_self_iff_true,
    if_true]

theorem nfsTail_no_pfx (bin byte : Bool) (N : GoStr) (d : Char)
    (hdl : N.getLast? = some d) (hdd : d.isDigit = true) (q : ℚ)
    (hq : goParseFloat N = some q) :
    nfsTail bin byte N = .ok ⟨bin, byte, [], .float q⟩ := by
  simp only [nfsTail, hdl, goAtoi_single_isNone, hdd, Bool.not_true,
    if_neg (by simp : ¬(false = true)), hq]

theorem nfsTail_pfx (bin byte : Bool) (N : GoStr) (c : Char)
    (hc : c.isDigit = false) (q : ℚ) (hq : goParseFloat N = some q) :
    nfsTail bin byte (N ++ [c]) = .ok ⟨bin, byte, [c], .float q⟩ := by
  have hlast : (N ++ [c]).getLast? = some c := getLast?_concat_single N c
  simp only [nfsTail, hlast, goAtoi_single_isNone, hc, Bool.not_false, eq_self_iff_true,
    if_true, List.dropLast_concat, hq]

theorem goParseFloat_intToString (n : ℤ) :
    goParseFloat (intToString n) = some ((n : ℚ)) := by
  by_cases hn : n < 0
  · rw [intToString, if_pos hn]
    have hhead := natDigits_head_digit (-n).toNat
    obtain ⟨h1, h2, _, _, _⟩ := isDigit_not_special _ hhead
    rw [goParseFloat_neg_cons _ ⟨h1, h2⟩,
      goParseFloat_digits _ (natDigits_ne_nil _) (natDigits_digits _), parseNat_natDigits]
    have hc : (((-n).toNat : ℕ) : ℚ) = ((-n : ℤ) : ℚ) := by
      exact_mod_cast Int.toNat_of_nonneg (by omega : (0 : ℤ) ≤ -n)
    rw [hc]
    show some (-((-n : ℤ) : ℚ)) = some ((n : ℚ))
    congr 1
    push_cast
    ring
  · rw [intToString, if_neg hn]
    rw [goParseFloat_digits _ (natDigits_ne_nil _) (natDigits_digits _), parseNat_natDigits]
    have hc : ((n.toNat : ℕ) : ℚ) = ((n : ℤ) : ℚ) := by
      exact_mod_cast Int.toNat_of_nonneg (by omega : (0 : ℤ) ≤ n)
    rw [hc]

theorem intToString_getLast_digit (n : ℤ) :
    ∃ d, (intToString n).getLast? = some d ∧ d.isDigit = true := by
  by_cases hn : n < 0
  · rw [intToString, if_pos hn]
    obtain ⟨d, hd, hdd⟩ := natDigits_getLast_digit (-n).toNat
    refine ⟨d, ?_, hdd⟩
    cases hA : natDigits (-n).toNat with
    | nil => exact absurd hA (natDigits_ne_nil _)
    | cons a l =>
      rw [hA] at hd
      rw [List.getLast?_cons_cons]
      exact hd
  · rw [intToString, if_neg hn]
    exact natDigits_getLast_digit n.toNat

theorem numberFromString_render (N P : GoStr) (bin byte : Bool) (q : ℚ)
    (hlast : ∃ d, N.getLast? = some d ∧ d.isDigit = true)
    (hP : P = [] ∨ ∃ c, P = [c] ∧ c ∈ validPfxChars)
    (hq : goParseFloat N = some q) :
    numberFromString (N ++ P ++ (if bin then ['i'] else []) ++ (if byte then ['B'] else []))
      = .ok ⟨bin, byte, P, .float q⟩ := by
  obtain ⟨d, hdl, hdd⟩ := hlast
  rcases hP with rfl | ⟨c, rfl, hc⟩
  · obtain ⟨_, _, _, hdB, hdi⟩ := isDigit_not_special d hdd
    have hT := nfsTail_no_pfx bin byte N d hdl hdd q hq
    cases bin <;> cases byte <;>
      simp only [Bool.false_eq_true, if_false, if_true, eq_self_iff_true,
        List.append_nil]
    · rw [numberFromString_strip_none N d hdl hdB hdi, hT]
    · rw [numberFromString_strip_b N d hdl hdi, hT]
    · rw [numberFromString_strip_i N, hT]
    · rw [numberFromString_strip_ib N, hT]
  · obtain ⟨hcD, hcB, hci, _⟩ := validPfx_facts c hc
    have hT := nfsTail_pfx bin byte N c hcD q hq
    have hclast : (N ++ [c]).getLast? = some c := getLast?_concat_single N c
    cases bin <;> cases byte <;>
      simp only [Bool.false_eq_true, if_false, if_true, eq_self_iff_true,
        List.append_nil]
    · rw [numberFromString_strip_none (N ++ [c]) c hclast hcB hci, hT]
    · rw [show N ++ [c] ++ ['B'] = (N ++ [c]) ++ ['B'] from rfl,
        numberFromString_strip_b (N ++ [c]) c hclast hci, hT]
    · rw [show N ++ [c] ++ ['i'] = (N ++ [c]) ++ ['i'] from rfl,
        numberFromString_strip_i (N ++ [c]), hT]
    · rw [show N ++ [c] ++ ['i'] ++ ['B'] = (N ++ [c]) ++ ['i'] ++ ['B'] from rfl,
        numberFromString_strip_ib (N ++ [c]), hT]

/-! ## Claim C2 -/

/-- C2 (amended): rendering round-trips through parsing on every `Number`
whose prefix is one of the defined letters (or empty) and whose value is an
int or a float with at most three exact decimal digits: parsing the rendering
succeeds, renders back to the identical string, and preserves `float64`.  The
original claim's universal string-level round-trip fails (see the
counterexample): rendering formats floats with only three decimals. -/
theorem c2_render_parse_roundtrip (x : Number)
    (hpfx : x.pfx = [] ∨ ∃ c, x.pfx = [c] ∧ c ∈ validPfxChars)
    (hval : (∃ n : ℤ, x.value = .int n) ∨
      ∃ q : ℚ, ∃ k : ℤ, x.value = .float q ∧ q * 1000 = (k : ℚ)) :
    ∃ y, numberFromString x.string = .ok y ∧ y.string = x.string ∧
      y.float64 = x.float64 := by
  obtain ⟨bin, byte, P, val⟩ := x
  dsimp only at hpfx hval
  rcases hval with ⟨n, rfl⟩ | ⟨q, k, rfl, hk⟩
  · have hfmt := trimFmt_spec ((n : ℚ)) (1000 * n) (by push_cast; ring)
    have hNstr := hfmt.2.2.2 n rfl
    have hstr : Number.string ⟨bin, byte, P, .int n⟩ =
        intToString n ++ P ++ (if bin then ['i'] else []) ++
          (if byte then ['B'] else []) := rfl
    refine ⟨⟨bin, byte, P, .float ((n : ℚ))⟩, ?_, ?_, ?_⟩
    · rw [hstr]
      exact numberFromString_render (intToString n) P bin byte ((n : ℚ))
        (intToString_getLast_digit n) hpfx (goParseFloat_intToString n)
    · show trimSuffix (dropTrailingZeros (goFormatFloat 3 ((n : ℚ)))) ['.'] ++ P ++
          (if bin then ['i'] else []) ++ (if byte then ['B'] else []) = _
      rw [hNstr, hstr]
    · rfl
  · have hfmt := trimFmt_spec q k hk
    have hstr : Number.string ⟨bin, byte, P, .float q⟩ =
        trimSuffix (dropTrailingZeros (goFormatFloat 3 q)) ['.'] ++ P ++
          (if bin then ['i'] else []) ++ (if byte then ['B'] else []) := rfl
    refine ⟨⟨bin, byte, P, .float q⟩, ?_, rfl, rfl⟩
    rw [hstr]
    exact numberFromString_render _ P bin byte q hfmt.2.2.1 hpfx hfmt.1

/-- C2 counterexample: the valid shorthand string `"0.0001"` does not
round-trip — the parse succeeds but the three-decimal rendering collapses it
to `"0"`, which trailing-zero normalization cannot reconcile with the input
(the input has no trailing zeros to strip). -/
theorem c2_roundtrip_counterexample :
    (numberFromString "0.0001".data).map Number.string = .ok "0".data ∧
      "0".data ≠ "0.0001".data := by decide

/-- C2 witness: the spec's own example `"12MiB"` (as the rendering of the
`Number` with value 12, prefix `M`, binary and byte multiples) round-trips. -/
theorem c2_roundtrip_witness :
    ∃ y, numberFromString (Number.string ⟨true, true, ['M'], .int 12⟩) = .ok y ∧
      y.string = Number.string ⟨true, true, ['M'], .int 12⟩ ∧
      y.float64 = Number.float64 ⟨true, true, ['M'], .int 12⟩ :=
  c2_render_parse_roundtrip ⟨true, true, ['M'], .int 12⟩
    (Or.inr ⟨'M', rfl, by decide⟩) (Or.inl ⟨12, rfl⟩)

/-! ## Claim C1 -/

/-- C1: parsing the sample progress record
`frame=17448 fps=254 q=31.0 size=  176032kB time=00:11:38.14 bitrate=2065.5kbits/s speed=10.2x`
sets exactly the seven fields: Frame 17448, FPS 254, Q 31.0,
Size 176032·8·1000 bits, Bitrate 2065.5·1000 bits/s, Speed 10.2, and
Time 11 min + 38 s + 140 ms (in nanoseconds). -/
theorem c1_sample_record_parse :
    parseResults
      "frame=17448 fps=254 q=31.0 size=  176032kB time=00:11:38.14 bitrate=2065.5kbits/s speed=10.2x".data
      = .ok ⟨some (2065500 : ℚ), some 254, some 17448, some (31 : ℚ),
          some 1408256000, some ((51 : ℚ) / 5),
          some ((11 * 60 + 38) * 1000000000 + 140 * 1000000)⟩ := by decide

/-! ## Claim C5 -/

/-- C5: the code appends `-hide_banner` unconditionally — `GlobalOptions`
has no `HideBanner` field, so the zero value does not produce an empty
argument vector as the claim (and the repository's own `TestGlobalOptions`)
requires.  The environment additions are empty as claimed. -/
theorem c5_hide_banner_unconditional :
    (GlobalOptions.adaptCmd ⟨none, false, none, false⟩ emptyCmd).args =
        ["-hide_banner".data] ∧
      ["-hide_banner".data] ≠ ([] : List GoStr) ∧
      (GlobalOptions.adaptCmd ⟨none, false, none, false⟩ emptyCmd).env = [] ∧
      (GlobalOptions.adaptCmd
        ⟨some ⟨none, "fatal".data, false⟩, false, none, true⟩ emptyCmd).args =
        ["-hide_banner".data, "-loglevel".data, "fatal".data, "-report".data] := by
  decide

/-! ## Claim C7 -/

/-- C7 counterexample: `Scale{}` renders as `"h=-1:w=-1"`, not `"w=-1:h=-1"`
— the code appends the height entry before the width entry. -/
theorem c7_scale_order_counterexample :
    Scale.string ⟨none, none⟩ = "h=-1:w=-1".data ∧
      Scale.string ⟨none, none⟩ ≠ "w=-1:h=-1".data := by decide

/-- C7 (amended): every `Scale` renders as `"h=<H|-1>:w=<W|-1>"` — the height
component first, then the width component, each defaulting to `-1` when the
corresponding optional field is unset. -/
theorem c7_scale_renders_height_then_width (s : Scale) :
    Scale.string s =
      "h=".data ++ (match s.height with
        | some h => intToString h
        | none => "-1".data) ++
      ":w=".data ++ (match s.width with
        | some w => intToString w
        | none => "-1".data) := by
  obtain ⟨h, w⟩ := s
  have hpair : ∀ a b : GoStr, List.intercalate [':'] [a, b] = a ++ [':'] ++ b := by
    intro a b
    simp [List.intercalate]
  cases h <;> cases w <;>
    simp only [Scale.string, List.nil_append, List.singleton_append] <;> rw [hpair] <;>
    simp

/-! ## Claim C10 -/

/-- C10: `StreamOption.adaptCmd` is atomic on the argument vector: when the
formatter rejects the dynamic value it returns the wrapped error and the
command unchanged; on success it appends exactly the flag (with the
`:<specifier>` suffix when a stream is set) and the formatted value. -/
theorem c10_stream_option_atomic (o : StreamOption) (cmd : Cmd) (name : GoStr)
    (fn : GoValue → Except GoStr GoStr) :
    (∀ e, fn o.value = .error e →
      o.adaptCmd cmd name fn = (some (streamOptionErr name e), cmd)) ∧
    (∀ v, fn o.value = .ok v →
      o.adaptCmd cmd name fn =
        (none, { cmd with args := cmd.args ++ [name ++ specSuffix o.stream, v] })) := by
  constructor <;> intro x hx <;> simp [StreamOption.adaptCmd, hx]

/-- C10 witness: a `-b` option holding a string value is rejected by the
`Number` formatter and leaves the empty command untouched. -/
theorem c10_stream_option_atomic_witness :
    StreamOption.adaptCmd ⟨none, .vStr "x".data⟩ emptyCmd "-b".data fmtNumber =
      (some (streamOptionErr "-b".data "astiffmpeg: value should be a Number".data),
        emptyCmd) :=
  (c10_stream_option_atomic ⟨none, .vStr "x".data⟩ emptyCmd "-b".data fmtNumber).1
    "astiffmpeg: value should be a Number".data (by rfl)

/-! ## Claim C3 -/

theorem numberFromString_eq_tail (s : GoStr) :
    numberFromString s =
      nfsTail (hasSuffix (if hasSuffix s ['B'] then trimSuffix s ['B'] else s) ['i'])
        (hasSuffix s ['B']) (postStripBI s) := rfl

theorem nfsTail_crash_iff (b1 b2 : Bool) (s2 : GoStr) :
    nfsTail b1 b2 s2 = .crash ↔ s2 = [] := by
  cases hg : s2.getLast? with
  | none =>
    rw [List.getLast?_eq_none_iff] at hg
    simp [nfsTail, hg]
  | some c =>
    have hne : s2 ≠ [] := by
      intro h
      rw [h] at hg
      simp at hg
    simp only [nfsTail, hg]
    cases hpf : goParseFloat (if (goAtoi [c]).isNone = true then s2.dropLast else s2) <;>
      simp [hpf, hne]

/-- C3 counterexample: inputs whose `B`/`i`-stripped remainder is empty do
not take the error return — `numberFromString` panics on them (index out of
range on the empty string). -/
theorem c3_empty_remainder_counterexample :
    numberFromString "B".data = .crash ∧ numberFromString "".data = .crash ∧
      numberFromString "i".data = .crash ∧ numberFromString "iB".data = .crash := by
  decide

/-- C3 (amended): `numberFromString` panics exactly on the inputs whose
`B`/`i`-stripped remainder is empty; on every other input it returns the
format error exactly when the numeric remainder (after the optional prefix
strip) is not parseable as a float — as on `"12abc"`. -/
theorem c3_parse_failure_characterization :
    (∀ s : GoStr, postStripBI s = [] ↔ numberFromString s = .crash) ∧
    (∀ s : GoStr, postStripBI s ≠ [] →
      ((∃ e, numberFromString s = .error e) ↔ goParseFloat (numericRem s) = none)) ∧
    numberFromString "12abc".data = .error parseFloatErr := by
  refine ⟨?_, ?_, by decide⟩
  · intro s
    rw [numberFromString_eq_tail s, nfsTail_crash_iff]
  · intro s hne
    rw [numberFromString_eq_tail s]
    cases hg : (postStripBI s).getLast? with
    | none =>
      rw [List.getLast?_eq_none_iff] at hg
      exact absurd hg hne
    | some c =>
      simp only [nfsTail, hg, numericRem]
      cases hpf : goParseFloat (if (goAtoi [c]).isNone = true then
          (postStripBI s).dropLast else postStripBI s) <;> simp [hpf]

/-- C3 witness: on `"12abc"` the stripped remainder is non-empty and the
error-return is equivalent to the numeric remainder being unparseable. -/
theorem c3_characterization_witness :
    (∃ e, numberFromString "12abc".data = .error e) ↔
      goParseFloat (numericRem "12abc".data) = none :=
  c3_parse_failure_characterization.2.1 "12abc".data (by decide)

/-! ## Claim C4 -/

/-- C4 counterexample: a tick whose last line has two carriage-return
segments with second-to-last `"size=B"` does not invoke the callback exactly
once — decoding panics, so the callback is not invoked at all. -/
theorem c4_crash_skips_callback :
    2 ≤ (splitOnChar '\r' ((splitOnChar '\n' "size=B\rx".data).getLastD [])).length ∧
      processEmits "size=B\rx".data = .crash := by decide

/-- C4 (amended): each tick splits the buffer on line-feed, takes the last
line, splits it on carriage-return; with fewer than two segments the callback
is not invoked; otherwise the second-to-last segment is decoded and the
callback is invoked exactly once with the decode — unless the decode panics
(a `size` value stripping to empty), in which case no callback occurs. -/
theorem c4_second_to_last_segment (b : GoStr) :
    ((splitOnChar '\r' ((splitOnChar '\n' b).getLastD [])).length < 2 →
      processEmits b = .ok []) ∧
    (2 ≤ (splitOnChar '\r' ((splitOnChar '\n' b).getLastD [])).length →
      processEmits b =
        (parseResults ((splitOnChar '\r' ((splitOnChar '\n' b).getLastD [])).getD
          ((splitOnChar '\r' ((splitOnChar '\n' b).getLastD [])).length - 2) [])).map
          (fun r => [r])) := by
  have hne := splitOnChar_ne_nil '\n' b
  constructor <;> intro h
  · simp only [processEmits, if_neg hne, if_pos h]
  · simp only [processEmits, if_neg hne, if_neg (not_lt.mpr h)]

/-- C4 witness: on the buffer `"a\rframe=5 \rt"` there are three segments
and the tick reports the decode of the middle (second-to-last) one. -/
theorem c4_second_to_last_witness :
    processEmits "a\rframe=5 \rt".data =
      (parseResults ((splitOnChar '\r'
        ((splitOnChar '\n' "a\rframe=5 \rt".data).getLastD [])).getD
          ((splitOnChar '\r' ((splitOnChar '\n' "a\rframe=5 \rt".data).getLastD
            [])).length - 2) [])).map (fun r => [r]) :=
  (c4_second_to_last_segment "a\rframe=5 \rt".data).2 (by decide)

/-! ## Claim C8 -/

theorem applyKV_not_error (k v : GoStr) (r : DefaultStdErrResults) :
    applyKV k v r = .crash ∨ ∃ r', applyKV k v r = .ok r' := by
  simp only [applyKV]
  repeat' split
  all_goals first
    | exact Or.inl rfl
    | exact Or.inr ⟨_, rfl⟩

theorem chunkFold_total : ∀ (l : List GoStr) (idx : ℕ) (st),
    chunkFold idx st l = .crash ∨ ∃ st', chunkFold idx st l = .ok st' := by
  intro l
  induction l with
  | nil => intro idx st; exact Or.inr ⟨st, rfl⟩
  | cons chunk rest ih =>
    intro idx st
    obtain ⟨r, k⟩ := st
    simp only [chunkFold]
    split
    · exact ih _ _
    · rename_i e heq
      exfalso
      by_cases hc : (splitOnChar ' ' (goTrimSpace chunk)).headD [] ≠ [] ∧ k ≠ []
      · rw [if_pos hc] at heq
        rcases applyKV_not_error k ((splitOnChar ' ' (goTrimSpace chunk)).headD []) r with
          h1 | ⟨r', h2⟩
        · exact GoResult.noConfusion (h1.symm.trans heq)
        · exact GoResult.noConfusion (h2.symm.trans heq)
      · rw [if_neg hc] at heq
        exact GoResult.noConfusion heq
    · exact Or.inl rfl

theorem applyKV_mono (k v : GoStr) (r r' : DefaultStdErrResults)
    (h : applyKV k v r = .ok r') :
    (r.bitrate.isSome → r'.bitrate.isSome) ∧ (r.fps.isSome → r'.fps.isSome) ∧
    (r.frame.isSome → r'.frame.isSome) ∧ (r.q.isSome → r'.q.isSome) ∧
    (r.size.isSome → r'.size.isSome) ∧ (r.speed.isSome → r'.speed.isSome) ∧
    (r.time.isSome → r'.time.isSome) := by
  simp only [applyKV] at h
  repeat' split at h
  all_goals try exact GoResult.noConfusion h
  all_goals injection h with h
  all_goals subst h
  all_goals simp

theorem numberFromString_crash_iff (v : GoStr) :
    numberFromString v = .crash ↔ postStripBI v = [] := by
  rw [numberFromString_eq_tail v, nfsTail_crash_iff]

theorem applyKV_crash_iff (k v : GoStr) (r : DefaultStdErrResults) :
    applyKV k v r = .crash ↔ k = "size".data ∧ numberFromString v = .crash := by
  simp only [applyKV]
  split_ifs with h1 h2 h3 h4 h5 h6 h7
  · exact iff_of_false
      (by cases goParseFloat (trimSuffix v "kbits/s".data) <;> simp)
      (fun h => absurd (h1.symm.trans h.1) (by decide))
  · exact iff_of_false (by cases goAtoi v <;> simp)
      (fun h => absurd (h2.symm.trans h.1) (by decide))
  · exact iff_of_false (by cases goParseFloat v <;> simp)
      (fun h => absurd (h3.symm.trans h.1) (by decide))
  · exact iff_of_false (by cases goParseFloat v <;> simp)
      (fun h => absurd (h4.symm.trans h.1) (by decide))
  · subst h5
    cases numberFromString v <;> simp
  · exact iff_of_false (by cases goParseFloat (trimSuffix v ['x']) <;> simp)
      (fun h => absurd h.1 h5)
  · exact iff_of_false (by simp) (fun h => absurd h.1 h5)
  · exact iff_of_false (by simp) (fun h => absurd h.1 h5)

theorem chunkFold_crash_iff : ∀ (l : List GoStr) (idx : ℕ)
    (r : DefaultStdErrResults) (k : GoStr),
    chunkFold idx (r, k) l = .crash ↔
      ∃ p ∈ kvSeq idx k l, p.1 = "size".data ∧ numberFromString p.2 = .crash := by
  intro l
  induction l with
  | nil =>
    intro idx r k
    simp [chunkFold, kvSeq]
  | cons chunk rest ih =>
    intro idx r k
    by_cases hc : (splitOnChar ' ' (goTrimSpace chunk)).headD [] ≠ [] ∧ k ≠ []
    · cases ha : applyKV k ((splitOnChar ' ' (goTrimSpace chunk)).headD []) r with
      | ok r' =>
        have hnc : ¬(k = "size".data ∧
            numberFromString ((splitOnChar ' ' (goTrimSpace chunk)).headD []) =
              .crash) := fun hx =>
          GoResult.noConfusion (ha.symm.trans ((applyKV_crash_iff _ _ r).mpr hx))
        simp only [chunkFold, kvSeq, if_pos hc, ha, List.singleton_append,
          List.mem_cons, ih]
        constructor
        · rintro ⟨p, hp, hcond⟩
          exact ⟨p, Or.inr hp, hcond⟩
        · rintro ⟨p, hp | hp, hcond⟩
          · subst hp
            exact absurd hcond hnc
          · exact ⟨p, hp, hcond⟩
      | error e =>
        rcases applyKV_not_error k ((splitOnChar ' ' (goTrimSpace chunk)).headD [])
          r with h | ⟨r', h⟩ <;> exact GoResult.noConfusion (h.symm.trans ha)
      | crash =>
        simp only [chunkFold, kvSeq, if_pos hc, ha, List.singleton_append,
          List.mem_cons, eq_self_iff_true, true_iff]
        exact ⟨(k, (splitOnChar ' ' (goTrimSpace chunk)).headD []), Or.inl rfl,
          (applyKV_crash_iff _ _ r).mp ha⟩
    · simp only [chunkFold, kvSeq, if_neg hc, List.nil_append]
      exact ih (idx + 1) r _

theorem parseResults_crash_iff (b : GoStr) :
    parseResults b = .crash ↔
      ∃ p ∈ kvSeq 0 [] (splitOnChar '=' b),
        p.1 = "size".data ∧ postStripBI p.2 = [] := by
  have h1 : parseResults b = .crash ↔
      chunkFold 0 (emptyResults, []) (splitOnChar '=' b) = .crash := by
    rw [parseResults]
    cases chunkFold 0 (emptyResults, []) (splitOnChar '=' b) <;> simp [GoResult.map]
  rw [h1]
  simp only [chunkFold_crash_iff, numberFromString_crash_iff]

/-- C8 counterexample: `parseResults` does fail — a record `size=B` makes it
panic; and an unparseable `time` value does not leave the field unset, it
sets `Time` to zero. -/
theorem c8_best_effort_counterexample :
    parseResults "size=B".data = .crash ∧
      parseResults "time=x".data = .ok { emptyResults with time := some 0 } := by
  decide

/-- C8 (amended): `parseResults` never returns an error, and it panics
exactly when the chunk loop hands the key `size` a value whose `B`/`i`-
stripped remainder is empty (the `numberFromString` panic) — on every other
input it succeeds; unknown keys are ignored; for every known key other than
`time` an unparseable value leaves the record unchanged; a `time` value
always sets the field to the sum of the components that parsed; and fields
already populated stay populated through every key/value application. -/
theorem c8_parse_best_effort :
    (∀ b : GoStr, parseResults b = .crash ∨ ∃ r, parseResults b = .ok r) ∧
    (∀ b : GoStr, parseResults b = .crash ↔
      ∃ p ∈ kvSeq 0 [] (splitOnChar '=' b),
        p.1 = "size".data ∧ postStripBI p.2 = []) ∧
    (∀ k v : GoStr, ∀ r, k ∉ (["bitrate".data, "frame".data, "fps".data, "q".data,
        "size".data, "speed".data, "time".data] : List GoStr) →
      applyKV k v r = .ok r) ∧
    (∀ v r, goParseFloat (trimSuffix v "kbits/s".data) = none →
      applyKV "bitrate".data v r = .ok r) ∧
    (∀ v r, goAtoi v = none → applyKV "frame".data v r = .ok r) ∧
    (∀ v r, goParseFloat v = none →
      applyKV "fps".data v r = .ok r ∧ applyKV "q".data v r = .ok r) ∧
    (∀ v r e, numberFromString v = .error e → applyKV "size".data v r = .ok r) ∧
    (∀ v r, goParseFloat (trimSuffix v ['x']) = none →
      applyKV "speed".data v r = .ok r) ∧
    (∀ v r, applyKV "time".data v r = .ok { r with time := some (goDuration v) }) ∧
    (∀ k v r r', applyKV k v r = .ok r' →
      (r.bitrate.isSome → r'.bitrate.isSome) ∧ (r.fps.isSome → r'.fps.isSome) ∧
      (r.frame.isSome → r'.frame.isSome) ∧ (r.q.isSome → r'.q.isSome) ∧
      (r.size.isSome → r'.size.isSome) ∧ (r.speed.isSome → r'.speed.isSome) ∧
      (r.time.isSome → r'.time.isSome)) := by
  refine ⟨?_, parseResults_crash_iff, ?_, ?_, ?_, ?_, ?_, ?_, ?_, applyKV_mono⟩
  · intro b
    rcases chunkFold_total (splitOnChar '=' b) 0 (emptyResults, []) with h | ⟨st, h⟩
    · exact Or.inl (by rw [parseResults, h]; rfl)
    · exact Or.inr ⟨st.1, by rw [parseResults, h]; rfl⟩
  · intro k v r h
    simp only [List.mem_cons, List.not_mem_nil, or_false, not_or] at h
    obtain ⟨h1, h2, h3, h4, h5, h6, h7⟩ := h
    simp [applyKV, h1, h2, h3, h4, h5, h6, h7]
  · intro v r h
    simp [applyKV, h]
  · intro v r h
    have hne : ¬("frame".data : GoStr) = "bitrate".data := by decide
    simp [applyKV, hne, h]
  · intro v r h
    have hne1 : ¬("fps".data : GoStr) = "bitrate".data := by decide
    have hne2 : ¬("fps".data : GoStr) = "frame".data := by decide
    have hne3 : ¬("q".data : GoStr) = "bitrate".data := by decide
    have hne4 : ¬("q".data : GoStr) = "frame".data := by decide
    have hne5 : ¬("q".data : GoStr) = "fps".data := by decide
    constructor
    · simp [applyKV, hne1, hne2, h]
    · simp [applyKV, hne3, hne4, hne5, h]
  · intro v r e h
    have hne1 : ¬("size".data : GoStr) = "bitrate".data := by decide
    have hne2 : ¬("size".data : GoStr) = "frame".data := by decide
    have hne3 : ¬("size".data : GoStr) = "fps".data := by decide
    have hne4 : ¬("size".data : GoStr) = "q".data := by decide
    simp [applyKV, hne1, hne2, hne3, hne4, h]
  · intro v r h
    have hne1 : ¬("speed".data : GoStr) = "bitrate".data := by decide
    have hne2 : ¬("speed".data : GoStr) = "frame".data := by decide
    have hne3 : ¬("speed".data : GoStr) = "fps".data := by decide
    have hne4 : ¬("speed".data : GoStr) = "q".data := by decide
    have hne5 : ¬("speed".data : GoStr) = "size".data := by decide
    simp [applyKV, hne1, hne2, hne3, hne4, hne5, h]
  · intro v r
    have hne1 : ¬("time".data : GoStr) = "bitrate".data := by decide
    have hne2 : ¬("time".data : GoStr) = "frame".data := by decide
    have hne3 : ¬("time".data : GoStr) = "fps".data := by decide
    have hne4 : ¬("time".data : GoStr) = "q".data := by decide
    have hne5 : ¬("time".data : GoStr) = "size".data := by decide
    have hne6 : ¬("time".data : GoStr) = "speed".data := by decide
    simp [applyKV, hne1, hne2, hne3, hne4, hne5, hne6]

/-- C8 witness: the unknown key `foo` is ignored, and an unparseable
`bitrate` value leaves the empty record unchanged. -/
theorem c8_best_effort_witness :
    applyKV "foo".data "1".data emptyResults = .ok emptyResults ∧
      applyKV "bitrate".data "zz".data emptyResults = .ok emptyResults :=
  ⟨c8_parse_best_effort.2.2.1 "foo".data "1".data emptyResults (by decide),
    c8_parse_best_effort.2.2.2.1 "zz".data emptyResults (by decide)⟩

/-! ## Claim C6 -/

/-- The argument vector of the second command extends that of the first,
with the environment unchanged. -/
def Cmd.ext (c c' : Cmd) : Prop :=
  ∃ t, c'.args = c.args ++ t ∧ c'.env = c.env

theorem Cmd.ext_refl (c : Cmd) : Cmd.ext c c := ⟨[], by simp, rfl⟩

theorem Cmd.ext_append (c : Cmd) (xs : List GoStr) :
    Cmd.ext c { c with args := c.args ++ xs } := ⟨xs, rfl, rfl⟩

theorem Cmd.ext_trans {a b c : Cmd} (h1 : Cmd.ext a b) (h2 : Cmd.ext b c) :
    Cmd.ext a c := by
  obtain ⟨t1, ha1, he1⟩ := h1
  obtain ⟨t2, ha2, he2⟩ := h2
  exact ⟨t1 ++ t2, by rw [ha2, ha1, List.append_assoc], by rw [he2, he1]⟩

theorem Cmd.ext_intro (c : Cmd) (xs : List GoStr) (env : List GoStr)
    (h : c.args <+: xs) (he : env = c.env) : Cmd.ext c ⟨xs, env⟩ := by
  obtain ⟨t, ht⟩ := h
  exact ⟨t, ht.symm, he⟩

theorem streamOptionLoop_ok (name : GoStr) (fn : GoValue → Except GoStr GoStr) :
    ∀ (l : List StreamOption) (cmd cmd' : Cmd),
    streamOptionLoop name fn l cmd = (none, cmd') →
    cmd'.args = cmd.args ++ loopRender name fn l ∧ cmd'.env = cmd.env ∧
      ∀ so ∈ l, ∃ v, fn so.value = .ok v := by
  intro l
  induction l with
  | nil =>
    intro cmd cmd' h
    injection h with h1 h2
    subst h2
    simp [loopRender]
  | cons so rest ih =>
    intro cmd cmd' h
    cases hfn : fn so.value with
    | error e =>
      simp only [streamOptionLoop, StreamOption.adaptCmd, hfn] at h
      exact absurd h (by simp)
    | ok v =>
      simp only [streamOptionLoop, StreamOption.adaptCmd, hfn] at h
      obtain ⟨ha, he, hall⟩ := ih _ _ h
      refine ⟨?_, by simpa using he, ?_⟩
      · rw [ha]
        simp [loopRender, hfn, List.append_assoc]
      · intro so' hso'
        rcases List.mem_cons.mp hso' with rfl | hm
        · exact ⟨v, hfn⟩
        · exact hall so' hm

theorem streamOptionLoop_ext (name : GoStr) (fn : GoValue → Except GoStr GoStr)
    (l : List StreamOption) (cmd cmd' : Cmd)
    (h : streamOptionLoop name fn l cmd = (none, cmd')) : Cmd.ext cmd cmd' := by
  obtain ⟨ha, he, -⟩ := streamOptionLoop_ok name fn l cmd cmd' h
  exact ⟨loopRender name fn l, ha, he⟩

theorem encStage1_ext (o : EncodingOptions) (cmd : Cmd) : Cmd.ext cmd (encStage1 o cmd) := by
  simp only [encStage1]
  cases o.audioSamplerate <;> cases o.bFrames <;>
    (refine Cmd.ext_intro _ _ _ ?_ rfl; first | exact List.prefix_refl _ | (simp only [List.append_assoc]; exact List.prefix_append _ _) | (simp [List.append_assoc]; try exact List.prefix_append _ _))

theorem encStage2_ext (o : EncodingOptions) (cmd : Cmd) : Cmd.ext cmd (encStage2 o cmd) := by
  simp only [encStage2]
  cases o.bStrategy <;> cases o.bufSize <;>
    (refine Cmd.ext_intro _ _ _ ?_ rfl; first | exact List.prefix_refl _ | (simp only [List.append_assoc]; exact List.prefix_append _ _) | (simp [List.append_assoc]; try exact List.prefix_append _ _))

theorem encStage3_ext (o : EncodingOptions) (cmd : Cmd) : Cmd.ext cmd (encStage3 o cmd) := by
  simp only [encStage3]
  by_cases h1 : o.coder ≠ [] <;>
    by_cases h2 : o.complexFilter ≠ [] <;>
      by_cases h3 : o.complexFilters ≠ [] <;>
        cases o.constantQuality <;> cases o.crf <;>
          simp only [h1, h2, h3, if_true, if_false, ite_not, if_neg, if_pos] <;>
            (refine Cmd.ext_intro _ _ _ ?_ rfl; first | exact List.prefix_refl _ | (simp only [List.append_assoc]; exact List.prefix_append _ _) | (simp [List.append_assoc]; try exact List.prefix_append _ _))

theorem encStage4_ext (o : EncodingOptions) (cmd : Cmd) : Cmd.ext cmd (encStage4 o cmd) := by
  simp only [encStage4]
  cases o.framerate <;> cases o.gop <;> cases o.keyintMin <;> cases o.level <;>
    (refine Cmd.ext_intro _ _ _ ?_ rfl; first | exact List.prefix_refl _ | (simp only [List.append_assoc]; exact List.prefix_append _ _) | (simp [List.append_assoc]; try exact List.prefix_append _ _))

theorem encStage5_ext (o : EncodingOptions) (cmd : Cmd) : Cmd.ext cmd (encStage5 o cmd) := by
  simp only [encStage5]
  (try split_ifs) <;>
    (refine Cmd.ext_intro _ _ _ ?_ rfl; first | exact List.prefix_refl _ | (simp only [List.append_assoc]; exact List.prefix_append _ _) | (simp [List.append_assoc]; try exact List.prefix_append _ _))

theorem encStage6_ext (o : EncodingOptions) (cmd : Cmd) : Cmd.ext cmd (encStage6 o cmd) := by
  simp only [encStage6]
  cases o.scThreshold <;> (try split_ifs) <;>
    (refine Cmd.ext_intro _ _ _ ?_ rfl; first | exact List.prefix_refl _ | (simp only [List.append_assoc]; exact List.prefix_append _ _) | (simp [List.append_assoc]; try exact List.prefix_append _ _))

/-- C6: on every successful `EncodingOptions.adaptCmd` run with a non-empty
or empty `Minrate` list, the `-minrate` entries are rendered in list order as
the flag (with `:<specifier>` when a stream is set) followed by the `Number`
value's string rendering, as one contiguous block placed after all `-maxrate`
entries; every `Minrate` value is a `Number`. -/
theorem c6_minrate_rendering (o : EncodingOptions) (cmd cmd' : Cmd)
    (h : o.adaptCmd cmd = (none, cmd')) :
    (∀ so ∈ o.minrate, ∃ n, so.value = .vNum n) ∧
    ∃ pre post,
      cmd'.args = pre ++ (o.minrate.flatMap (fun so =>
        ["-minrate".data ++ specSuffix so.stream, numberValueString so.value])) ++ post ∧
      (o.maxrate.flatMap (fun so =>
        ["-maxrate".data ++ specSuffix so.stream, numberValueString so.value])) <:+ pre := by
  simp only [EncodingOptions.adaptCmd] at h
  cases hb : streamOptionLoop "-b".data fmtNumber o.bitrate (encStage1 o cmd) with
  | mk eb cb =>
  cases eb with
  | some e => simp [hb] at h
  | none =>
  simp only [hb] at h
  cases hc : streamOptionLoop "-codec".data fmtString o.codec (encStage2 o cb) with
  | mk ec cc =>
  cases ec with
  | some e => simp [hc] at h
  | none =>
  simp only [hc] at h
  cases hf : streamOptionLoop "-filter".data fmtFilter o.filters (encStage3 o cc) with
  | mk ef cf =>
  cases ef with
  | some e => simp [hf] at h
  | none =>
  simp only [hf] at h
  cases hmax : streamOptionLoop "-maxrate".data fmtNumber o.maxrate (encStage4 o cf) with
  | mk emax cmax =>
  cases emax with
  | some e => simp [hmax] at h
  | none =>
  simp only [hmax] at h
  cases hmin : streamOptionLoop "-minrate".data fmtNumber o.minrate cmax with
  | mk emin cmin =>
  cases emin with
  | some e => simp [hmin] at h
  | none =>
  simp only [hmin] at h
  cases hq : streamOptionLoop "-q".data fmtInt o.quality (encStage5 o cmin) with
  | mk eq' cq =>
  cases eq' with
  | some e => simp [hq] at h
  | none =>
  simp only [hq] at h
  cases hfr : streamOptionLoop "-frames".data fmtInt o.frames (encStage6 o cq) with
  | mk efr cfr =>
  cases efr with
  | some e => simp [hfr] at h
  | none =>
  simp only [hfr] at h
  injection h with h1 h2
  subst h2
  -- facts from the minrate and maxrate loops
  obtain ⟨hmin_args, hmin_env, hmin_num⟩ :=
    streamOptionLoop_ok "-minrate".data fmtNumber o.minrate cmax cmin hmin
  obtain ⟨hmax_args, hmax_env, -⟩ :=
    streamOptionLoop_ok "-maxrate".data fmtNumber o.maxrate (encStage4 o cf) cmax hmax
  have hnum : ∀ so ∈ o.minrate, ∃ n, so.value = .vNum n := by
    intro so hso
    obtain ⟨v, hv⟩ := hmin_num so hso
    cases hval : so.value <;> rw [hval] at hv <;> simp [fmtNumber] at hv
    · exact ⟨_, rfl⟩
  have hrender : loopRender "-minrate".data fmtNumber o.minrate =
      o.minrate.flatMap (fun so =>
        ["-minrate".data ++ specSuffix so.stream, numberValueString so.value]) := by
    rw [loopRender]
    refine List.flatMap_congr ?_
    intro so hso
    obtain ⟨n, hn⟩ := hnum so hso
    rw [hn]
    rfl
  have hrender_max : loopRender "-maxrate".data fmtNumber o.maxrate =
      o.maxrate.flatMap (fun so =>
        ["-maxrate".data ++ specSuffix so.stream, numberValueString so.value]) := by
    rw [loopRender]
    refine List.flatMap_congr ?_
    intro so hso
    obtain ⟨v, hv⟩ := (streamOptionLoop_ok "-maxrate".data fmtNumber o.maxrate
      (encStage4 o cf) cmax hmax).2.2 so hso
    cases hval : so.value <;> rw [hval] at hv <;> simp [fmtNumber] at hv
    rfl
  -- the tail after the minrate block only appends
  have hafter : Cmd.ext cmin cfr := by
    refine Cmd.ext_trans (encStage5_ext o cmin) ?_
    refine Cmd.ext_trans (streamOptionLoop_ext _ _ _ _ _ hq) ?_
    exact Cmd.ext_trans (encStage6_ext o cq) (streamOptionLoop_ext _ _ _ _ _ hfr)
  obtain ⟨post, hpost, -⟩ := hafter
  refine ⟨hnum, cmax.args, post, ?_, ?_⟩
  · rw [hpost, hmin_args, hrender, List.append_assoc]
  · rw [hmax_args, hrender_max]
    exact ⟨(encStage4 o cf).args, rfl⟩

/-- C6 witness: an options value with one unscoped `-maxrate 128` entry and
one video-scoped `-minrate 64k` entry compiles successfully, with the
minrate block in place after the maxrate block. -/
theorem c6_minrate_rendering_witness :
    (∀ so ∈ ([⟨some ⟨none, [], "v".data⟩,
        .vNum ⟨false, false, ['k'], .int 64⟩⟩] : List StreamOption),
      ∃ n, so.value = .vNum n) ∧
    ∃ pre post,
      (["-maxrate".data, "128".data, "-minrate:v".data, "64k".data] : List GoStr) =
        pre ++ (([⟨some ⟨none, [], "v".data⟩,
            .vNum ⟨false, false, ['k'], .int 64⟩⟩] : List StreamOption).flatMap
          (fun so => ["-minrate".data ++ specSuffix so.stream,
            numberValueString so.value])) ++ post ∧
      (([⟨none, .vNum ⟨false, false, [], .int 128⟩⟩] : List StreamOption).flatMap
        (fun so => ["-maxrate".data ++ specSuffix so.stream,
          numberValueString so.value])) <:+ pre :=
  c6_minrate_rendering
    ⟨none, none, [], none, none, [], [], [], [], none, none, [], none, [], none, none,
      none, [⟨none, .vNum ⟨false, false, [], .int 128⟩⟩],
      [⟨some ⟨none, [], "v".data⟩, .vNum ⟨false, false, ['k'], .int 64⟩⟩],
      [], [], [], [], none, []⟩
    emptyCmd ⟨["-maxrate".data, "128".data, "-minrate:v".data, "64k".data], []⟩
    (by decide)

/-! ## Claim C9 -/

theorem processEmits_eq (b : GoStr) :
    processEmits b =
      (if (splitOnChar '\r' ((splitOnChar '\n' b).getLastD [])).length < 2 then .ok []
       else (parseResults ((splitOnChar '\r' ((splitOnChar '\n' b).getLastD [])).getD
          ((splitOnChar '\r' ((splitOnChar '\n' b).getLastD [])).length - 2) [])).map
          (fun r => [r])) := by
  simp only [processEmits, if_neg (splitOnChar_ne_nil '\n' b)]

/-- C9: `Process` is stateless across ticks — it is a deterministic function
of the buffer snapshot (equal snapshots give equal reports); at most one
record is reported per tick; and appending bytes containing no line-feed and
no carriage-return (no new completed record) leaves the tick's report
unchanged, so the same completed record is reported again. -/
theorem c9_process_stateless :
    (∀ b1 b2 : GoStr, b1 = b2 → processEmits b1 = processEmits b2) ∧
    (∀ b : GoStr, ∀ l, processEmits b = .ok l → l.length ≤ 1) ∧
    (∀ b t : GoStr, (∀ c ∈ t, c ≠ '\n' ∧ c ≠ '\r') →
      processEmits (b ++ t) = processEmits b) := by
  refine ⟨fun b1 b2 h => by rw [h], ?_, ?_⟩
  · intro b l h
    rw [processEmits_eq b] at h
    split at h
    · injection h with h
      subst h
      simp
    · cases hp : parseResults ((splitOnChar '\r' ((splitOnChar '\n' b).getLastD [])).getD
          ((splitOnChar '\r' ((splitOnChar '\n' b).getLastD [])).length - 2) []) <;>
        rw [hp] at h
      · injection h with h
        subst h
        simp
      · exact absurd h (by simp [GoResult.map])
      · exact absurd h (by simp [GoResult.map])
  · intro b t ht
    have htn : ∀ c ∈ t, c ≠ '\n' := fun c hc => (ht c hc).1
    have htr : ∀ c ∈ t, c ≠ '\r' := fun c hc => (ht c hc).2
    have hbne := splitOnChar_ne_nil '\n' b
    have hlastline : (splitOnChar '\n' (b ++ t)).getLastD [] =
        (splitOnChar '\n' b).getLastD [] ++ t := by
      rw [splitOnChar_append_no_sep '\n' b t htn]
      have hgl := appendToLast_getLast? t (splitOnChar '\n' b) hbne
      rw [List.getLastD_eq_getLast?, List.getLastD_eq_getLast?, hgl]
      cases hg : (splitOnChar '\n' b).getLast? with
      | none =>
        rw [List.getLast?_eq_none_iff] at hg
        exact absurd hg hbne
      | some y => simp
    have hitems : splitOnChar '\r' ((splitOnChar '\n' (b ++ t)).getLastD []) =
        appendToLast t (splitOnChar '\r' ((splitOnChar '\n' b).getLastD [])) := by
      rw [hlastline]
      exact splitOnChar_append_no_sep '\r' _ t htr
    rw [processEmits_eq (b ++ t), processEmits_eq b, hitems, appendToLast_length]
    by_cases h2 : (splitOnChar '\r' ((splitOnChar '\n' b).getLastD [])).length < 2
    · rw [if_pos h2, if_pos h2]
    · rw [if_neg h2, if_neg h2,
        appendToLast_getD t _ _ (by omega)]

/-- C9 witness: appending the record-free bytes `"12"` to a buffer whose last
line already holds a completed record leaves the tick's report unchanged. -/
theorem c9_process_stateless_witness :
    processEmits ("frame=5 \rx".data ++ "12".data) = processEmits "frame=5 \rx".data :=
  c9_process_stateless.2.2 "frame=5 \rx".data "12".data (by decide)

end FF
